import Mathlib

/-!
Verification of the page-level PDF extraction pipeline of
`src/utils/pdf_to_text_process.py`.

The Python source is shallowly embedded below.  Conventions:

* Python `float` coordinate arithmetic is modelled over `ℚ` (exact arithmetic).
* Python strings are Lean `String`s; the handful of `str`/`re` operations the
  source uses (`strip`, `splitlines`, `re.sub` with the concrete patterns of
  the source, `str.replace`, `"x".join`) are given explicit executable models
  on `List Char`, each written to follow the Python semantics of the concrete
  pattern appearing in the source.
* `unicodedata.normalize("NFKC", ·)` is an external function; every definition
  that the source routes through it takes it as an explicit parameter `nfkc`.
* The external PDF backends (`fitz`, `camelot`, `pdfplumber`) are modelled by
  their observable outputs: a page's word list, and each detection strategy's
  outcome (`Except Unit …`, where `.error` models the strategy raising).
* Python whitespace classes are modelled on the ASCII whitespace characters
  (space, tab, newline, carriage return, vertical tab, form feed), and
  `str.splitlines` on the line breaks `"\n"`, `"\r\n"`, `"\r"`.
-/

namespace PdfToText

/-! ## Python string primitives -/

/-- Membership of a character in Python's `\s` class (ASCII fragment). -/
def isPySpace (c : Char) : Bool :=
  c = ' ' || c = '\t' || c = '\n' || c = '\r' || c = '\x0b' || c = '\x0c'

/-- Python `str.strip()` on a character list. -/
def trimBoth (l : List Char) : List Char :=
  ((l.dropWhile isPySpace).reverse.dropWhile isPySpace).reverse

/-- Python `str.strip()`. -/
def pyStrip (s : String) : String :=
  String.mk (trimBoth s.data)

/-- `re.sub(r"\s+", " ", s)`: collapse each maximal whitespace run to one
space.  `prevSpace` records whether the previous character belonged to the
current run. -/
def collapseWsGo (prevSpace : Bool) : List Char → List Char
  | [] => []
  | c :: rest =>
    if isPySpace c then
      if prevSpace then collapseWsGo true rest else ' ' :: collapseWsGo true rest
    else c :: collapseWsGo false rest

def collapseWs (l : List Char) : List Char := collapseWsGo false l

/-- Is the character a space or a tab (Python class `[ \t]`)? -/
def isSpaceTab (c : Char) : Bool := c = ' ' || c = '\t'

/-- `re.sub(r"[ \t]+", " ", s)`. -/
def collapseSpaceTabGo (prevST : Bool) : List Char → List Char
  | [] => []
  | c :: rest =>
    if isSpaceTab c then
      if prevST then collapseSpaceTabGo true rest
      else ' ' :: collapseSpaceTabGo true rest
    else c :: collapseSpaceTabGo false rest

/-- `re.sub(r"\n{3,}", "\n\n", s)`: `run` counts the newlines of the current
run already seen; from the third one on, the newline is dropped. -/
def collapseNlGo (run : Nat) : List Char → List Char
  | [] => []
  | c :: rest =>
    if c = '\n' then
      if 2 ≤ run then collapseNlGo (run + 1) rest
      else '\n' :: collapseNlGo (run + 1) rest
    else c :: collapseNlGo 0 rest

/-- `re.sub(r"(?<=\d),(?=\d)", "", s)`: drop a comma standing between two
digits.  `prev` is the previous character of the original string. -/
def stripCommasGo (prev : Option Char) : List Char → List Char
  | [] => []
  | c :: rest =>
    if c = ',' && (match prev with | some p => p.isDigit | none => false)
        && (match rest.head? with | some n => n.isDigit | none => false) then
      stripCommasGo (some c) rest
    else c :: stripCommasGo (some c) rest

/-- Python `str.splitlines()` (line breaks `"\r\n"`, `"\r"`, `"\n"`).
`acc` holds the current line reversed; `skipNl` is set right after a `'\r'`
so that a following `'\n'` is absorbed into the same `"\r\n"` break. -/
def splitlinesGo (skipNl : Bool) (acc : List Char) : List Char → List String
  | [] => if acc.isEmpty then [] else [String.mk acc.reverse]
  | c :: rest =>
    if skipNl && c = '\n' then splitlinesGo false acc rest
    else if c = '\n' then String.mk acc.reverse :: splitlinesGo false [] rest
    else if c = '\r' then String.mk acc.reverse :: splitlinesGo true [] rest
    else splitlinesGo false (c :: acc) rest

/-- Python `str.splitlines()`. -/
def pySplitlines (s : String) : List String := splitlinesGo false [] s.data

/-- `"\n".join(lines)`, on character lists. -/
def joinNlChars : List (List Char) → List Char
  | [] => []
  | [l] => l
  | l :: rest => l ++ '\n' :: joinNlChars rest

/-- `"\n".join(lines)`. -/
def joinNl (ls : List String) : String := String.mk (joinNlChars (ls.map String.data))

/-- `str.replace(a, b)` for a one-character pattern `a`. -/
def replaceChar (a : Char) (b : List Char) : List Char → List Char
  | [] => []
  | c :: rest => if c = a then b ++ replaceChar a b rest else c :: replaceChar a b rest

/-- `int(·)` on a digit string, as produced by `re` group capture. -/
def digitsToNat (s : String) : Nat :=
  s.data.foldl (fun n c => n * 10 + (c.toNat - 48)) 0

/-- Strip an expected prefix from a character list, or fail. -/
def stripPrefixChars : List Char → List Char → Option (List Char)
  | [], cs => some cs
  | _ :: _, [] => none
  | p :: ps, c :: cs => if c = p then stripPrefixChars ps cs else none

/-! ## Geometry (`rect_iou`, `overlaps_any`) -/

/-- A page-local rectangle `(x0, y0, x1, y1)`, top-left origin. -/
structure Rect where
  x0 : ℚ
  y0 : ℚ
  x1 : ℚ
  y1 : ℚ
deriving DecidableEq, Repr

/-- `iw * ih` of `rect_iou`: the (clamped) intersection area. -/
def interArea (a b : Rect) : ℚ :=
  max 0 (min a.x1 b.x1 - max a.x0 b.x0) * max 0 (min a.y1 b.y1 - max a.y0 b.y0)

/-- `a_area` of `rect_iou`: the clamped area of one rectangle. -/
def rectArea (a : Rect) : ℚ := max 0 (a.x1 - a.x0) * max 0 (a.y1 - a.y0)

/-- `rect_iou(a, b)` of the source, over exact rationals. -/
def rect_iou (a b : Rect) : ℚ :=
  if interArea a b = 0 then 0
  else if rectArea a + rectArea b - interArea a b ≤ 0 then 0
  else interArea a b / (rectArea a + rectArea b - interArea a b)

/-- `overlaps_any(bbox, regions, iou_thresh)` of the source. -/
def overlaps_any (bbox : Rect) (regions : List Rect) (iouThresh : ℚ) : Bool :=
  regions.any fun r => decide (iouThresh ≤ rect_iou bbox r)

/-- A rectangle with positive width and height. -/
def NonDegenerate (a : Rect) : Prop := a.x0 < a.x1 ∧ a.y0 < a.y1

/-- Two rectangles with no common interior point: separated on some axis. -/
def RectDisjoint (a b : Rect) : Prop :=
  a.x1 ≤ b.x0 ∨ b.x1 ≤ a.x0 ∨ a.y1 ≤ b.y0 ∨ b.y1 ≤ a.y0

section RectIoU

lemma interArea_nonneg (a b : Rect) : 0 ≤ interArea a b :=
  mul_nonneg (le_max_left _ _) (le_max_left _ _)

lemma interArea_le_rectArea_left (a b : Rect) : interArea a b ≤ rectArea a := by
  unfold interArea rectArea
  apply mul_le_mul
  · apply max_le_max le_rfl
    have h1 : min a.x1 b.x1 ≤ a.x1 := min_le_left _ _
    have h2 : a.x0 ≤ max a.x0 b.x0 := le_max_left _ _
    linarith
  · apply max_le_max le_rfl
    have h1 : min a.y1 b.y1 ≤ a.y1 := min_le_left _ _
    have h2 : a.y0 ≤ max a.y0 b.y0 := le_max_left _ _
    linarith
  · exact le_max_left _ _
  · exact le_max_left _ _

lemma interArea_comm (a b : Rect) : interArea a b = interArea b a := by
  unfold interArea
  rw [max_comm a.x0 b.x0, max_comm a.y0 b.y0, min_comm a.x1 b.x1, min_comm a.y1 b.y1]

lemma interArea_le_rectArea_right (a b : Rect) : interArea a b ≤ rectArea b := by
  rw [interArea_comm]
  exact interArea_le_rectArea_left b a

lemma rect_iou_comm (a b : Rect) : rect_iou a b = rect_iou b a := by
  unfold rect_iou
  rw [interArea_comm a b, add_comm (rectArea a) (rectArea b)]

lemma rect_iou_nonneg (a b : Rect) : 0 ≤ rect_iou a b := by
  unfold rect_iou
  split_ifs with h1 h2
  · exact le_rfl
  · exact le_rfl
  · push_neg at h2
    exact div_nonneg (interArea_nonneg a b) (le_of_lt h2)

lemma rect_iou_le_one (a b : Rect) : rect_iou a b ≤ 1 := by
  unfold rect_iou
  split_ifs with h1 h2
  · norm_num
  · norm_num
  · push_neg at h2
    rw [div_le_one h2]
    have ha := interArea_le_rectArea_left a b
    have hb := interArea_le_rectArea_right a b
    linarith

lemma rect_iou_self (a : Rect) (h : NonDegenerate a) : rect_iou a a = 1 := by
  obtain ⟨hx, hy⟩ := h
  have hi : interArea a a = (a.x1 - a.x0) * (a.y1 - a.y0) := by
    unfold interArea
    rw [min_self, max_self, min_self, max_self,
      max_eq_right (by linarith : (0 : ℚ) ≤ a.x1 - a.x0),
      max_eq_right (by linarith : (0 : ℚ) ≤ a.y1 - a.y0)]
  have har : rectArea a = (a.x1 - a.x0) * (a.y1 - a.y0) := by
    unfold rectArea
    rw [max_eq_right (by linarith : (0 : ℚ) ≤ a.x1 - a.x0),
      max_eq_right (by linarith : (0 : ℚ) ≤ a.y1 - a.y0)]
  have hpos : 0 < (a.x1 - a.x0) * (a.y1 - a.y0) :=
    mul_pos (by linarith) (by linarith)
  unfold rect_iou
  rw [hi, har, if_neg (by linarith)]
  have hu : (a.x1 - a.x0) * (a.y1 - a.y0) + (a.x1 - a.x0) * (a.y1 - a.y0) -
      (a.x1 - a.x0) * (a.y1 - a.y0) = (a.x1 - a.x0) * (a.y1 - a.y0) := by ring
  rw [hu, if_neg (by linarith), div_self (by linarith)]

lemma rect_iou_disjoint (a b : Rect) (h : RectDisjoint a b) : rect_iou a b = 0 := by
  have hz : interArea a b = 0 := by
    unfold interArea
    rcases h with h | h | h | h
    · have hle : min a.x1 b.x1 - max a.x0 b.x0 ≤ 0 := by
        have h1 : min a.x1 b.x1 ≤ a.x1 := min_le_left _ _
        have h2 : b.x0 ≤ max a.x0 b.x0 := le_max_right _ _
        linarith
      rw [max_eq_left hle, zero_mul]
    · have hle : min a.x1 b.x1 - max a.x0 b.x0 ≤ 0 := by
        have h1 : min a.x1 b.x1 ≤ b.x1 := min_le_right _ _
        have h2 : a.x0 ≤ max a.x0 b.x0 := le_max_left _ _
        linarith
      rw [max_eq_left hle, zero_mul]
    · have hle : min a.y1 b.y1 - max a.y0 b.y0 ≤ 0 := by
        have h1 : min a.y1 b.y1 ≤ a.y1 := min_le_left _ _
        have h2 : b.y0 ≤ max a.y0 b.y0 := le_max_right _ _
        linarith
      rw [max_eq_left hle, mul_zero]
    · have hle : min a.y1 b.y1 - max a.y0 b.y0 ≤ 0 := by
        have h1 : min a.y1 b.y1 ≤ b.y1 := min_le_right _ _
        have h2 : a.y0 ≤ max a.y0 b.y0 := le_max_left _ _
        linarith
      rw [max_eq_left hle, mul_zero]
  unfold rect_iou
  rw [if_pos hz]

lemma rect_iou_degenerate (a b : Rect) (h : ¬ NonDegenerate a) : rect_iou a b = 0 := by
  unfold NonDegenerate at h
  push_neg at h
  have hz : interArea a b = 0 := by
    unfold interArea
    by_cases hx : a.x0 < a.x1
    · have hy := h hx
      have hle : min a.y1 b.y1 - max a.y0 b.y0 ≤ 0 := by
        have h1 : min a.y1 b.y1 ≤ a.y1 := min_le_left _ _
        have h2 : a.y0 ≤ max a.y0 b.y0 := le_max_left _ _
        linarith
      rw [max_eq_left hle, mul_zero]
    · push_neg at hx
      have hle : min a.x1 b.x1 - max a.x0 b.x0 ≤ 0 := by
        have h1 : min a.x1 b.x1 ≤ a.x1 := min_le_left _ _
        have h2 : a.x0 ≤ max a.x0 b.x0 := le_max_left _ _
        linarith
      rw [max_eq_left hle, zero_mul]
  unfold rect_iou
  rw [if_pos hz]

end RectIoU

/-- **C8.** `rect_iou` is symmetric and valued in `[0, 1]`; it is `1` on a
non-degenerate rectangle against itself, and `0` on disjoint pairs and on
pairs with a degenerate argument. -/
theorem rect_iou_spec (a b : Rect) :
    rect_iou a b = rect_iou b a ∧
    0 ≤ rect_iou a b ∧ rect_iou a b ≤ 1 ∧
    (NonDegenerate a → rect_iou a a = 1) ∧
    (RectDisjoint a b ∨ ¬ NonDegenerate a ∨ ¬ NonDegenerate b → rect_iou a b = 0) := by
  refine ⟨rect_iou_comm a b, rect_iou_nonneg a b, rect_iou_le_one a b,
    rect_iou_self a, ?_⟩
  rintro (h | h | h)
  · exact rect_iou_disjoint a b h
  · exact rect_iou_degenerate a b h
  · rw [rect_iou_comm]
    exact rect_iou_degenerate b a h

/-- Witness for **C8** at concrete rectangles: the unit square against itself
and against a distant square. -/
theorem rect_iou_spec_witness :
    rect_iou ⟨0, 0, 1, 1⟩ ⟨0, 0, 1, 1⟩ = 1 ∧
    rect_iou ⟨0, 0, 1, 1⟩ ⟨2, 2, 3, 3⟩ = 0 := by
  constructor
  · exact (rect_iou_spec ⟨0, 0, 1, 1⟩ ⟨0, 0, 1, 1⟩).2.2.2.1 (by constructor <;> norm_num)
  · exact (rect_iou_spec ⟨0, 0, 1, 1⟩ ⟨2, 2, 3, 3⟩).2.2.2.2
      (Or.inl (Or.inl (by norm_num)))

/-! ## `convert_table_to_markdown` -/

/-- The cell escape of `convert_table_to_markdown`:
`cell.replace("|", "\\|").replace("\n", " ").strip()`. -/
def escCell (cell : String) : String :=
  pyStrip (String.mk (replaceChar '\n' [' '] (replaceChar '|' ['\\', '|'] cell.data)))

/-- `rows = [["" if c is None else str(c).strip() for c in row] for row in table_data]`. -/
def strippedRows (tableData : List (List (Option String))) : List (List String) :=
  tableData.map fun row => row.map fun c => match c with | none => "" | some s => pyStrip s

/-- `rows = [r for r in rows if any(cell != "" for cell in r)]`. -/
def cleanRows (tableData : List (List (Option String))) : List (List String) :=
  (strippedRows tableData).filter fun r => r.any fun cell => !(cell == "")

/-- `width = max(len(r) for r in rows)`, capped by `max_cols` when given. -/
def mdWidth (tableData : List (List (Option String))) (maxCols : Option Nat) : Nat :=
  let w := ((cleanRows tableData).map List.length).foldl max 0
  match maxCols with | some m => min w m | none => w

/-- `(r + [""] * (width - len(r)))[:width]`. -/
def padRow (width : Nat) (r : List String) : List String :=
  (r ++ List.replicate (width - r.length) "").take width

/-- The normalized rows of `convert_table_to_markdown`. -/
def paddedRows (tableData : List (List (Option String))) (maxCols : Option Nat) :
    List (List String) :=
  (cleanRows tableData).map (padRow (mdWidth tableData maxCols))

/-- `"| " + " | ".join(cells) + " |"`. -/
def mkRowLine (cells : List String) : String :=
  "| " ++ String.intercalate " | " cells ++ " |"

/-- `header = rows[0] if header_rows >= 1 else [f"col{i+1}" for i in range(width)]`. -/
def mdHeader (tableData : List (List (Option String))) (headerRows : Nat)
    (maxCols : Option Nat) : List String :=
  if 1 ≤ headerRows then (paddedRows tableData maxCols).headD []
  else (List.range (mdWidth tableData maxCols)).map fun i => "col" ++ Nat.repr (i + 1)

/-- `body = rows[header_rows:] if header_rows >= 1 and len(rows) > 1 else rows`. -/
def mdBody (tableData : List (List (Option String))) (headerRows : Nat)
    (maxCols : Option Nat) : List (List String) :=
  if 1 ≤ headerRows ∧ 1 < (paddedRows tableData maxCols).length then
    (paddedRows tableData maxCols).drop headerRows
  else paddedRows tableData maxCols

/-- `convert_table_to_markdown(table_data, header_rows, max_cols)` of the source. -/
def convert_table_to_markdown (tableData : List (List (Option String)))
    (headerRows : Nat) (maxCols : Option Nat) : String :=
  if tableData = [] then ""
  else if cleanRows tableData = [] then ""
  else
    String.intercalate "\n"
      (mkRowLine ((mdHeader tableData headerRows maxCols).map escCell) ::
       mkRowLine ((mdHeader tableData headerRows maxCols).map fun _ => "---") ::
       (mdBody tableData headerRows maxCols).map fun r => mkRowLine (r.map escCell))

section Markdown

lemma padRow_length (width : Nat) (r : List String) : (padRow width r).length = width := by
  simp only [padRow, List.length_take, List.length_append, List.length_replicate]
  omega

lemma paddedRows_length_eq (tableData : List (List (Option String))) (maxCols : Option Nat) :
    ∀ r ∈ paddedRows tableData maxCols, r.length = mdWidth tableData maxCols := by
  intro r hr
  simp only [paddedRows, List.mem_map] at hr
  obtain ⟨r0, _, rfl⟩ := hr
  exact padRow_length _ _

end Markdown

/-- **C6.** For a table grid with at least one non-blank row, the rendered
markdown consists of a header line built from padded row 0, a separator line
with exactly `C` dash-groups, and one line per body row; every normalized row
has exactly `C` cells, and every rendered cell goes through the pipe/newline
escape. -/
theorem convert_table_to_markdown_shape (tableData : List (List (Option String)))
    (h : cleanRows tableData ≠ []) :
    ∃ hdr body, paddedRows tableData none = hdr :: body ∧
      hdr.length = mdWidth tableData none ∧
      (∀ r ∈ paddedRows tableData none, r.length = mdWidth tableData none) ∧
      convert_table_to_markdown tableData 1 none = String.intercalate "\n"
        (mkRowLine (hdr.map escCell) ::
         mkRowLine (List.replicate (mdWidth tableData none) "---") ::
         (if body = [] then [hdr] else body).map fun r => mkRowLine (r.map escCell)) := by
  have hdata : tableData ≠ [] := by
    intro hd
    apply h
    simp [cleanRows, strippedRows, hd]
  obtain ⟨hdr, body, hrows⟩ : ∃ hdr body, paddedRows tableData none = hdr :: body := by
    cases hp : paddedRows tableData none with
    | nil =>
      exfalso
      apply h
      have := congrArg List.length hp
      simp only [paddedRows, List.length_map, List.length_nil] at this
      exact List.eq_nil_of_length_eq_zero this
    | cons a l => exact ⟨a, l, rfl⟩
  have hhdrlen : hdr.length = mdWidth tableData none :=
    paddedRows_length_eq tableData none hdr (by rw [hrows]; exact List.mem_cons_self _ _)
  refine ⟨hdr, body, hrows, hhdrlen, paddedRows_length_eq tableData none, ?_⟩
  have hhdr : mdHeader tableData 1 none = hdr := by
    rw [mdHeader, if_pos (le_refl 1), hrows, List.headD_cons]
  have hbody : mdBody tableData 1 none = if body = [] then [hdr] else body := by
    cases body with
    | nil =>
      rw [mdBody, hrows, if_neg (by simp), if_pos rfl]
    | cons x xs =>
      rw [mdBody, hrows, if_pos ⟨le_refl 1, by simp⟩, List.drop_one, List.tail_cons,
        if_neg (by simp)]
  have hsep : hdr.map (fun _ => ("---" : String)) =
      List.replicate (mdWidth tableData none) "---" := by
    rw [← hhdrlen]
    induction hdr with
    | nil => rfl
    | cons a l ih => simp [List.replicate_succ, ih]
  unfold convert_table_to_markdown
  rw [if_neg hdata, if_neg h, hhdr, hbody, hsep]

/-- Witness for **C6** at a concrete ragged 2×?-grid with a pipe character in
one cell. -/
theorem convert_table_to_markdown_shape_witness :
    cleanRows [[some "A", some "B|b"], [some " C "]] ≠ [] ∧
    ∃ hdr body,
      paddedRows [[some "A", some "B|b"], [some " C "]] none = hdr :: body ∧
      hdr.length = mdWidth [[some "A", some "B|b"], [some " C "]] none ∧
      (∀ r ∈ paddedRows [[some "A", some "B|b"], [some " C "]] none,
        r.length = mdWidth [[some "A", some "B|b"], [some " C "]] none) ∧
      convert_table_to_markdown [[some "A", some "B|b"], [some " C "]] 1 none =
        String.intercalate "\n"
          (mkRowLine (hdr.map escCell) ::
           mkRowLine (List.replicate (mdWidth [[some "A", some "B|b"], [some " C "]] none) "---") ::
           (if body = [] then [hdr] else body).map fun r => mkRowLine (r.map escCell)) :=
  ⟨by decide, convert_table_to_markdown_shape _ (by decide)⟩

/-! ## `extract_tables_with_fitz_and_camelot`

The two external detection backends are modelled by their observable outcomes:

* `fitz`: `page.find_tables()` yields a list of candidate tables, each with an
  optional `bbox` attribute and the result of `t.extract()` (`none` models
  `extract` raising, which the source catches and treats as no data); an
  `Except.error` models the whole `find_tables` call raising (caught by the
  outer `try`).
* `camelot.read_pdf(..., flavor=…)`: either raises (`Except.error`, caught
  per-flavor) or yields a list of tables, each with its `df` cell grid and the
  optional `_bbox` / `bbox` attributes probed by the source.
-/

/-- A `fitz` table candidate, by its observable attributes. -/
structure FitzCand where
  bbox : Option Rect
  extractResult : Option (List (List (Option String)))
deriving DecidableEq

/-- A `camelot` table: cell grid plus the optional `_bbox`/`bbox` attributes
(`none` = attribute absent, `some none` = attribute present holding `None`). -/
structure CamTable where
  df : List (List (Option String))
  attrPrivBBox : Option (Option Rect)
  attrBBox : Option (Option Rect)
deriving DecidableEq

/-- The final value of `tb` after the source's
`for attr in ("_bbox", "bbox"): if hasattr(t, attr): tb = getattr(t, attr)`
loop (the trailing `if tb and len(tb) == 4: pass` has no effect). -/
def camTb (t : CamTable) : Option Rect :=
  match t.attrBBox with
  | some v => v
  | none => match t.attrPrivBBox with
    | some v => v
    | none => none

/-- One entry of the detector's `table_items` result list. -/
structure TableItem where
  bbox : Option Rect
  raw_data : List (List (Option String))
  markdown : String
  source : String
deriving DecidableEq

/-- `c is None or str(c).strip() == ""`. -/
def cellBlank (c : Option String) : Bool :=
  match c with | none => true | some s => pyStrip s == ""

/-- A row all of whose cells are blank after trimming. -/
def rowAllBlank (row : List (Option String)) : Bool := row.all cellBlank

/-- `not data or all(... for row in data)`: the whole grid is blank (or empty). -/
def gridAllBlank (data : List (List (Option String))) : Bool := data.all rowAllBlank

/-- The items appended by the `fitz` branch: a candidate is kept iff its
`bbox` is truthy and `extract()` returned a non-empty grid
(`if tb and data and len(data) > 0`). -/
def fitzItems (cands : List FitzCand) : List TableItem :=
  cands.filterMap fun t =>
    t.bbox.bind fun tb =>
      t.extractResult.bind fun data =>
        if data ≠ [] then
          some ⟨some tb, data, convert_table_to_markdown data 1 none, "fitz"⟩
        else none

/-- The item built for a kept `camelot` table. -/
def camItem (flavor : String) (t : CamTable) : TableItem :=
  ⟨camTb t, t.df, convert_table_to_markdown t.df 1 none, "camelot-" ++ flavor⟩

/-- The items appended for one camelot flavor: a table is skipped iff its grid
is empty or all cells are blank after trimming (`if not data or all(...)`). -/
def camItems (flavor : String) (tables : List CamTable) : List TableItem :=
  tables.filterMap fun t =>
    if t.df = [] ∨ gridAllBlank t.df then none else some (camItem flavor t)

/-- The items produced by the primary (`fitz`) phase, absorbing the outer
`try/except` (an exception leaves `table_items` empty). -/
def primaryItems (fitz : Except Unit (List FitzCand)) : List TableItem :=
  match fitz with
  | .error _ => []
  | .ok cands => fitzItems cands

/-- One camelot flavor attempt: an exception (`.error`) is caught and leaves
the accumulated items unchanged. -/
def camStep (acc : List TableItem) (flavor : String)
    (res : Except Unit (List CamTable)) : List TableItem :=
  match res with
  | .error _ => acc
  | .ok tables => acc ++ camItems flavor tables

/-- `extract_tables_with_fitz_and_camelot` of the source: primary `fitz`
detection, then — only when it produced nothing — camelot `lattice` followed
by camelot `stream`, breaking as soon as `table_items` is non-empty. -/
def extract_tables_with_fitz_and_camelot (fitz : Except Unit (List FitzCand))
    (lattice stream : Except Unit (List CamTable)) : List TableItem :=
  let items := primaryItems fitz
  if items ≠ [] then items
  else
    let afterLattice := camStep [] "lattice" lattice
    if afterLattice ≠ [] then afterLattice
    else camStep afterLattice "stream" stream

section Detector

lemma mem_fitzItems {cands : List FitzCand} {it : TableItem} :
    it ∈ fitzItems cands ↔ ∃ t ∈ cands, ∃ tb data, t.bbox = some tb ∧
      t.extractResult = some data ∧ data ≠ [] ∧
      it = ⟨some tb, data, convert_table_to_markdown data 1 none, "fitz"⟩ := by
  simp only [fitzItems, List.mem_filterMap]
  constructor
  · rintro ⟨t, ht, hsome⟩
    cases hb : t.bbox with
    | none => rw [hb] at hsome; simp at hsome
    | some tb =>
      cases he : t.extractResult with
      | none => rw [hb, he] at hsome; simp at hsome
      | some data =>
        rw [hb, he] at hsome
        simp only [Option.some_bind] at hsome
        by_cases hd : data = []
        · rw [if_neg (by simp [hd])] at hsome
          simp at hsome
        · rw [if_pos hd] at hsome
          exact ⟨t, ht, tb, data, hb, he, hd, (Option.some.injEq _ _ ▸ hsome).symm⟩
  · rintro ⟨t, ht, tb, data, hb, he, hd, rfl⟩
    refine ⟨t, ht, ?_⟩
    rw [hb, he]
    simp only [Option.some_bind]
    rw [if_pos hd]

lemma mem_camItems {flavor : String} {tables : List CamTable} {it : TableItem} :
    it ∈ camItems flavor tables ↔ ∃ t ∈ tables, t.df ≠ [] ∧
      gridAllBlank t.df = false ∧ it = camItem flavor t := by
  simp only [camItems, List.mem_filterMap]
  constructor
  · rintro ⟨t, ht, hsome⟩
    by_cases hc : t.df = [] ∨ gridAllBlank t.df
    · rw [if_pos hc] at hsome; simp at hsome
    · rw [if_neg hc] at hsome
      push_neg at hc
      refine ⟨t, ht, hc.1, ?_, (Option.some.injEq _ _ ▸ hsome).symm⟩
      cases hgb : gridAllBlank t.df
      · rfl
      · exact absurd hgb hc.2
  · rintro ⟨t, ht, h1, h2, rfl⟩
    exact ⟨t, ht, by rw [if_neg (by simp [h1, h2])]⟩

lemma mem_extract_tables {f : Except Unit (List FitzCand)}
    {l s : Except Unit (List CamTable)} {it : TableItem}
    (h : it ∈ extract_tables_with_fitz_and_camelot f l s) :
    (∃ cands, f = Except.ok cands ∧ it ∈ fitzItems cands) ∨
    (∃ lt, l = Except.ok lt ∧ it ∈ camItems "lattice" lt) ∨
    (∃ st, s = Except.ok st ∧ it ∈ camItems "stream" st) := by
  unfold extract_tables_with_fitz_and_camelot at h
  by_cases hp : primaryItems f = []
  · rw [hp, if_neg (by simp)] at h
    by_cases ha : camStep [] "lattice" l ≠ []
    · rw [if_pos ha] at h
      cases hl : l with
      | error e => rw [hl] at h; simp [camStep] at h
      | ok lt =>
        rw [hl] at h
        simp only [camStep, List.nil_append] at h
        exact Or.inr (Or.inl ⟨lt, rfl, h⟩)
    · rw [if_neg ha] at h
      push_neg at ha
      rw [ha] at h
      cases hs : s with
      | error e => rw [hs] at h; simp [camStep] at h
      | ok st =>
        rw [hs] at h
        simp only [camStep, List.nil_append] at h
        exact Or.inr (Or.inr ⟨st, rfl, h⟩)
  · rw [if_pos hp] at h
    cases hf : f with
    | error e => rw [hf] at h; simp [primaryItems] at h
    | ok cands =>
      rw [hf] at h
      exact Or.inl ⟨cands, rfl, h⟩

end Detector

/-- **C9.** In the primary (`fitz`) path a candidate is emitted iff it has
both a present `bbox` and a non-empty extracted grid; consequently every
`TableItem` of the detector whose `bbox` is `none` carries a camelot source
tag. -/
theorem fitz_requires_bbox_and_data (f : Except Unit (List FitzCand))
    (l s : Except Unit (List CamTable)) :
    (∀ cands, f = Except.ok cands →
      ∀ it, it ∈ fitzItems cands ↔ ∃ t ∈ cands, ∃ tb data, t.bbox = some tb ∧
        t.extractResult = some data ∧ data ≠ [] ∧
        it = ⟨some tb, data, convert_table_to_markdown data 1 none, "fitz"⟩) ∧
    (∀ it ∈ extract_tables_with_fitz_and_camelot f l s, it.bbox = none →
      it.source = "camelot-lattice" ∨ it.source = "camelot-stream") := by
  constructor
  · rintro cands rfl it
    exact mem_fitzItems
  · intro it hit hnone
    rcases mem_extract_tables hit with ⟨cands, _, hmem⟩ | ⟨lt, _, hmem⟩ | ⟨st, _, hmem⟩
    · rcases mem_fitzItems.1 hmem with ⟨t, _, tb, data, _, _, _, rfl⟩
      simp at hnone
    · rcases mem_camItems.1 hmem with ⟨t, _, _, _, rfl⟩
      exact Or.inl rfl
    · rcases mem_camItems.1 hmem with ⟨t, _, _, _, rfl⟩
      exact Or.inr rfl

/-- Witness for **C9**: a bbox-less fitz candidate with non-empty data is
dropped, and a bbox-less camelot item is tagged `camelot-lattice`. -/
theorem fitz_requires_bbox_and_data_witness :
    fitzItems [⟨none, some [[some "x", some "y"]]⟩] = [] ∧
    (camItem "lattice" ⟨[[some "x", some "y"]], none, none⟩).bbox = none ∧
    (camItem "lattice" ⟨[[some "x", some "y"]], none, none⟩).source = "camelot-lattice" := by
  refine ⟨?_, by decide, rfl⟩
  have h := (fitz_requires_bbox_and_data (Except.ok [⟨none, some [[some "x", some "y"]]⟩])
    (Except.ok []) (Except.ok [])).1 _ rfl
  cases hfi : fitzItems [(⟨none, some [[some "x", some "y"]]⟩ : FitzCand)] with
  | nil => rfl
  | cons a tl =>
    exfalso
    rcases (h a).1 (by rw [hfi]; exact List.mem_cons_self _ _) with
      ⟨t, ht, tb, data, hb, _, _, _⟩
    rcases List.mem_singleton.1 ht with rfl
    simp at hb

/-- **C3 (amended).** The all-blank filter is applied only on the camelot
fallback path: a camelot table is kept iff its grid is non-empty and some
cell is non-blank after trimming, while a fitz candidate with a bbox and a
non-empty grid is kept without any blank-cell check. -/
theorem blank_filter_scope (flavor : String) (tables : List CamTable)
    (cands : List FitzCand) :
    (∀ it ∈ camItems flavor tables, it.raw_data ≠ [] ∧ gridAllBlank it.raw_data = false) ∧
    (∀ t ∈ tables, t.df ≠ [] → gridAllBlank t.df = false →
      camItem flavor t ∈ camItems flavor tables) ∧
    (∀ t ∈ cands, ∀ tb data, t.bbox = some tb → t.extractResult = some data → data ≠ [] →
      (⟨some tb, data, convert_table_to_markdown data 1 none, "fitz"⟩ : TableItem)
        ∈ fitzItems cands) := by
  refine ⟨?_, ?_, ?_⟩
  · intro it hit
    rcases mem_camItems.1 hit with ⟨t, _, h1, h2, rfl⟩
    exact ⟨h1, h2⟩
  · intro t ht h1 h2
    exact mem_camItems.2 ⟨t, ht, h1, h2, rfl⟩
  · intro t ht tb data hb he hd
    exact mem_fitzItems.2 ⟨t, ht, tb, data, hb, he, hd, rfl⟩

/-- Witness for **C3 (amended)** on concrete one-row tables. -/
theorem blank_filter_scope_witness :
    camItem "stream" ⟨[[some "x", some "y"]], none, none⟩ ∈
      camItems "stream" [⟨[[some "x", some "y"]], none, none⟩] ∧
    (⟨some ⟨0, 0, 1, 1⟩, [[some "x"]], convert_table_to_markdown [[some "x"]] 1 none,
      "fitz"⟩ : TableItem) ∈ fitzItems [⟨some ⟨0, 0, 1, 1⟩, some [[some "x"]]⟩] := by
  constructor
  · exact (blank_filter_scope "stream" [⟨[[some "x", some "y"]], none, none⟩] []).2.1
      _ (List.mem_singleton.2 rfl) (by decide) (by decide)
  · exact (blank_filter_scope "stream" [] [⟨some ⟨0, 0, 1, 1⟩, some [[some "x"]]⟩]).2.2
      _ (List.mem_singleton.2 rfl) _ _ rfl rfl (by decide)

/-- **C3 (counterexample).** A fitz candidate whose single cell is blank after
trimming is nevertheless kept by the detector (the primary path has no
blank-cell filter), refuting "a table is kept iff at least one cell in some
row is non-blank" for the primary strategy. -/
theorem all_blank_fitz_table_kept :
    extract_tables_with_fitz_and_camelot
        (Except.ok [⟨some ⟨0, 0, 1, 1⟩, some [[some " "]]⟩])
        (Except.ok []) (Except.ok []) =
      [⟨some ⟨0, 0, 1, 1⟩, [[some " "]], "", "fitz"⟩] ∧
    gridAllBlank [[some " "]] = true := by
  constructor
  · rfl
  · rfl

/-- **C5.** When the primary detector yields nothing, the fallback chain runs
camelot `lattice` then camelot `stream`, stopping at the first flavor that
contributes at least one non-empty table; a flavor that raises is skipped, and
if both contribute nothing the detector returns `[]`. -/
theorem fallback_chain_spec (f : Except Unit (List FitzCand))
    (l s : Except Unit (List CamTable)) (hf : primaryItems f = []) :
    (∀ lt, l = Except.ok lt → camItems "lattice" lt ≠ [] →
      extract_tables_with_fitz_and_camelot f l s = camItems "lattice" lt) ∧
    ((l = Except.error () ∨ ∃ lt, l = Except.ok lt ∧ camItems "lattice" lt = []) →
      ∀ st, s = Except.ok st →
        extract_tables_with_fitz_and_camelot f l s = camItems "stream" st) ∧
    ((l = Except.error () ∨ ∃ lt, l = Except.ok lt ∧ camItems "lattice" lt = []) →
      (s = Except.error () ∨ ∃ st, s = Except.ok st ∧ camItems "stream" st = []) →
      extract_tables_with_fitz_and_camelot f l s = []) := by
  have hlat :
      (l = Except.error () ∨ ∃ lt, l = Except.ok lt ∧ camItems "lattice" lt = []) →
      camStep [] "lattice" l = [] := by
    rintro (rfl | ⟨lt, rfl, hlt⟩)
    · rfl
    · simp [camStep, hlt]
  unfold extract_tables_with_fitz_and_camelot
  rw [hf, if_neg (by simp)]
  refine ⟨?_, ?_, ?_⟩
  · rintro lt rfl hne
    have hstep : camStep [] "lattice" (Except.ok lt) = camItems "lattice" lt := by
      simp [camStep]
    rw [hstep, if_pos hne]
  · rintro hl st rfl
    rw [hlat hl, if_neg (by simp)]
    simp [camStep]
  · rintro hl hs
    rw [hlat hl, if_neg (by simp)]
    rcases hs with rfl | ⟨st, rfl, hst⟩
    · rfl
    · simp [camStep, hst]

/-- Witness for **C5**: empty fitz result, lattice raising, stream producing
one non-blank table. -/
theorem fallback_chain_spec_witness :
    primaryItems (Except.ok []) = [] ∧
    extract_tables_with_fitz_and_camelot (Except.ok [])
        (Except.error ()) (Except.ok [⟨[[some "x", some "y"]], none, none⟩]) =
      camItems "stream" [⟨[[some "x", some "y"]], none, none⟩] := by
  refine ⟨rfl, ?_⟩
  exact (fallback_chain_spec (Except.ok []) (Except.error ())
    (Except.ok [⟨[[some "x", some "y"]], none, none⟩]) rfl).2.1
    (Or.inl rfl) _ rfl

/-! ## Table–text deduplication (`normalize_for_compare`,
`build_table_line_set`, `remove_table_line_duplicates`) -/

/-- `normalize_for_compare(s)` of the source: NFKC (external, passed in as
`nfkc`), whitespace collapse + strip, and removal of commas standing between
digits. -/
def normalize_for_compare (nfkc : String → String) (s : String) : String :=
  String.mk (stripCommasGo none (pyStrip (String.mk (collapseWs (nfkc s).data))).data)

/-- `build_table_line_set(table_data, min_nonempty)` of the source, as a list
whose membership models membership in the Python set: one normalized joined
line per row having at least `min_nonempty` non-blank cells, when the
normalization is itself non-empty. -/
def build_table_line_set (nfkc : String → String)
    (tableData : List (List (Option String))) (minNonempty : Nat) : List String :=
  tableData.filterMap fun row =>
    let cells := row.filterMap fun c =>
      match c with
      | none => none
      | some s => if pyStrip s = "" then none else some (pyStrip s)
    if minNonempty ≤ cells.length then
      if normalize_for_compare nfkc (String.intercalate " " cells) = "" then none
      else some (normalize_for_compare nfkc (String.intercalate " " cells))
    else none

/-- The union of the line sets of all table items
(`line_set |= build_table_line_set(raw, min_nonempty=2)` for truthy `raw`). -/
def tableLineSet (nfkc : String → String) (tableItems : List TableItem) : List String :=
  tableItems.flatMap fun t =>
    if t.raw_data = [] then [] else build_table_line_set nfkc t.raw_data 2

/-- `norm and norm in line_set`: the dropping condition of the loop. -/
def lineMatchesTable (nfkc : String → String) (lineSet : List String)
    (line : String) : Bool :=
  (normalize_for_compare nfkc line != "") &&
    lineSet.contains (normalize_for_compare nfkc line)

/-- `ln.strip() != ""`: kept by the final blank-line filter. -/
def nonBlankLine (line : String) : Bool := pyStrip line != ""

/-- `remove_table_line_duplicates(text, table_items)` of the source. -/
def remove_table_line_duplicates (nfkc : String → String) (text : String)
    (tableItems : List TableItem) : String :=
  if text = "" then text
  else if tableLineSet nfkc tableItems = [] then text
  else
    joinNl (((pySplitlines text).filter fun line =>
      !(lineMatchesTable nfkc (tableLineSet nfkc tableItems) line)).filter nonBlankLine)

section Dedup

lemma string_mk_data (s : String) : String.mk s.data = s := by
  cases s
  rfl

lemma joinNlChars_cons_cons (x y : List Char) (r : List (List Char)) :
    joinNlChars (x :: y :: r) = x ++ '\n' :: joinNlChars (y :: r) := rfl

lemma splitlinesGo_no_break :
    ∀ (cs : List Char) (skip : Bool) (acc : List Char),
      (∀ c ∈ acc, c ≠ '\n' ∧ c ≠ '\r') →
      ∀ l ∈ splitlinesGo skip acc cs, ∀ c ∈ l.data, c ≠ '\n' ∧ c ≠ '\r' := by
  intro cs
  induction cs with
  | nil =>
    intro skip acc hacc l hl c hc
    simp only [splitlinesGo] at hl
    split at hl
    · exact absurd hl (List.not_mem_nil l)
    · rcases List.mem_singleton.mp hl with rfl
      exact hacc c (by simpa using hc)
  | cons d rest ih =>
    intro skip acc hacc l hl
    simp only [splitlinesGo] at hl
    by_cases h1 : (skip && d = '\n') = true
    · rw [if_pos h1] at hl
      exact ih false acc hacc l hl
    · rw [if_neg h1] at hl
      by_cases h2 : d = '\n'
      · rw [if_pos h2] at hl
        rcases List.mem_cons.mp hl with rfl | hl'
        · intro c hc; exact hacc c (by simpa using hc)
        · exact ih false [] (by simp) l hl'
      · rw [if_neg h2] at hl
        by_cases h3 : d = '\r'
        · rw [if_pos h3] at hl
          rcases List.mem_cons.mp hl with rfl | hl'
          · intro c hc; exact hacc c (by simpa using hc)
          · exact ih true [] (by simp) l hl'
        · rw [if_neg h3] at hl
          refine ih false (d :: acc) ?_ l hl
          intro c hc
          rcases List.mem_cons.mp hc with rfl | hc'
          · exact ⟨h2, h3⟩
          · exact hacc c hc'

lemma mem_pySplitlines_no_break {s : String} {l : String} (hl : l ∈ pySplitlines s) :
    ∀ c ∈ l.data, c ≠ '\n' ∧ c ≠ '\r' :=
  splitlinesGo_no_break s.data false [] (by simp) l hl

lemma splitlinesGo_cons_nl (acc rest : List Char) :
    splitlinesGo false acc ('\n' :: rest) =
      String.mk acc.reverse :: splitlinesGo false [] rest := by
  simp [splitlinesGo]

lemma splitlinesGo_cons_other {c : Char} (h1 : c ≠ '\n') (h2 : c ≠ '\r')
    (acc rest : List Char) :
    splitlinesGo false acc (c :: rest) = splitlinesGo false (c :: acc) rest := by
  simp only [splitlinesGo]
  rw [if_neg (by simp), if_neg h1, if_neg h2]

lemma splitlinesGo_append (l : List Char) (hl : ∀ c ∈ l, c ≠ '\n' ∧ c ≠ '\r') :
    ∀ acc cs, splitlinesGo false acc (l ++ cs) = splitlinesGo false (l.reverse ++ acc) cs := by
  induction l with
  | nil => intro acc cs; simp
  | cons c l ih =>
    intro acc cs
    have hc := hl c (List.mem_cons_self _ _)
    rw [List.cons_append, splitlinesGo_cons_other hc.1 hc.2,
      ih (fun x hx => hl x (List.mem_cons_of_mem _ hx)) (c :: acc) cs]
    simp

lemma pySplitlines_joinNl :
    ∀ ls : List String,
      (∀ l ∈ ls, l.data ≠ [] ∧ ∀ c ∈ l.data, c ≠ '\n' ∧ c ≠ '\r') →
      pySplitlines (joinNl ls) = ls := by
  intro ls
  induction ls with
  | nil => intro _; rfl
  | cons a tl ih =>
    intro h
    obtain ⟨ha1, ha2⟩ := h a (List.mem_cons_self _ _)
    cases tl with
    | nil =>
      show splitlinesGo false [] (joinNlChars [a.data]) = [a]
      have hj : joinNlChars [a.data] = a.data ++ [] := by simp [joinNlChars]
      rw [hj, splitlinesGo_append a.data ha2 [] [], List.append_nil]
      have hrev : a.data.reverse ≠ [] := by simpa using ha1
      rw [show splitlinesGo false a.data.reverse [] =
          [String.mk a.data.reverse.reverse] from by
        simp [splitlinesGo, List.isEmpty_iff, hrev]]
      rw [List.reverse_reverse, string_mk_data]
    | cons b tl2 =>
      show splitlinesGo false [] (joinNlChars (a.data :: b.data :: tl2.map String.data))
        = a :: b :: tl2
      rw [joinNlChars_cons_cons, splitlinesGo_append a.data ha2 [] _, List.append_nil,
        splitlinesGo_cons_nl, List.reverse_reverse, string_mk_data]
      exact congrArg (a :: ·) (ih fun l hl => h l (List.mem_cons_of_mem _ hl))

lemma nonBlank_data_ne_nil {l : String} (h : nonBlankLine l = true) : l.data ≠ [] := by
  intro h0
  have : l = "" := by
    cases l with
    | mk d => simp only at h0; rw [h0]
  rw [this] at h
  simp [nonBlankLine, pyStrip, trimBoth] at h

/-- Splitting the output of the deduplicator recovers exactly the kept lines:
those that do not exactly match a table row and are not blank. -/
lemma pySplitlines_remove (nfkc : String → String) (text : String)
    (items : List TableItem) (htext : text ≠ "")
    (hset : tableLineSet nfkc items ≠ []) :
    pySplitlines (remove_table_line_duplicates nfkc text items) =
      ((pySplitlines text).filter fun line =>
        !(lineMatchesTable nfkc (tableLineSet nfkc items) line)).filter nonBlankLine := by
  unfold remove_table_line_duplicates
  rw [if_neg htext, if_neg hset]
  apply pySplitlines_joinNl
  intro l hl
  have hblank : nonBlankLine l = true := (List.mem_filter.mp hl).2
  have hbase : l ∈ pySplitlines text :=
    (List.mem_filter.mp (List.mem_filter.mp hl).1).1
  exact ⟨nonBlank_data_ne_nil hblank, mem_pySplitlines_no_break hbase⟩

end Dedup

/-- **C7.** The deduplicator is idempotent: running
`remove_table_line_duplicates` on its own output (with the same table items
and the same NFKC function) returns that output unchanged. -/
theorem remove_table_line_duplicates_idempotent (nfkc : String → String)
    (text : String) (items : List TableItem) :
    remove_table_line_duplicates nfkc
        (remove_table_line_duplicates nfkc text items) items =
      remove_table_line_duplicates nfkc text items := by
  by_cases htext : text = ""
  · subst htext
    have h1 : remove_table_line_duplicates nfkc "" items = "" := by
      unfold remove_table_line_duplicates
      rw [if_pos rfl]
    rw [h1, h1]
  · by_cases hset : tableLineSet nfkc items = []
    · have h1 : remove_table_line_duplicates nfkc text items = text := by
        unfold remove_table_line_duplicates
        rw [if_neg htext, if_pos hset]
      rw [h1, h1]
    · set L := tableLineSet nfkc items with hL
      set out := remove_table_line_duplicates nfkc text items with hout
      by_cases ho : out = ""
      · rw [ho]
        unfold remove_table_line_duplicates
        rw [if_pos rfl]
      · have hsplit := pySplitlines_remove nfkc text items htext hset
        rw [← hout, ← hL] at hsplit
        have hkeep1 : (pySplitlines out).filter
            (fun line => !(lineMatchesTable nfkc L line)) = pySplitlines out := by
          rw [List.filter_eq_self]
          intro a ha
          rw [hsplit] at ha
          exact (List.mem_filter.mp (List.mem_filter.mp ha).1).2
        have hkeep2 : (pySplitlines out).filter nonBlankLine = pySplitlines out := by
          rw [List.filter_eq_self]
          intro a ha
          rw [hsplit] at ha
          exact (List.mem_filter.mp ha).2
        have hout2 : out = joinNl (((pySplitlines text).filter fun line =>
            !(lineMatchesTable nfkc L line)).filter nonBlankLine) := by
          rw [hout]
          unfold remove_table_line_duplicates
          rw [if_neg htext, ← hL, if_neg hset]
        conv_lhs => rw [remove_table_line_duplicates]
        rw [if_neg ho, ← hL, if_neg hset, hkeep1, hkeep2, hsplit]
        exact hout2.symm

/-- **C4 (amended).** When no table row qualifies as a candidate the text is
returned verbatim; otherwise a line of the text is removed iff its
normalization exactly equals a candidate row's normalized joined cells
(whole-line match on `normalize_for_compare`) **or** the line is blank after
stripping — blank lines are dropped by the re-join even though they match no
row. -/
theorem dedup_exact_match_or_blank (nfkc : String → String) (text : String)
    (items : List TableItem) :
    (tableLineSet nfkc items = [] →
      remove_table_line_duplicates nfkc text items = text) ∧
    (tableLineSet nfkc items ≠ [] →
      pySplitlines (remove_table_line_duplicates nfkc text items) =
        (pySplitlines text).filter fun line =>
          !(lineMatchesTable nfkc (tableLineSet nfkc items) line) &&
            nonBlankLine line) := by
  constructor
  · intro hset
    unfold remove_table_line_duplicates
    by_cases htext : text = ""
    · rw [if_pos htext]
    · rw [if_neg htext, if_pos hset]
  · intro hset
    by_cases htext : text = ""
    · subst htext
      have h1 : remove_table_line_duplicates nfkc "" items = "" := by
        unfold remove_table_line_duplicates
        rw [if_pos rfl]
      rw [h1]
      rfl
    · rw [pySplitlines_remove nfkc text items htext hset, List.filter_filter]
      exact List.filter_congr fun a _ => Bool.and_comm _ _

/-- Witness for **C4 (amended)**: a text with a matching line, a blank line
and a kept prose line, against one two-cell table row. -/
theorem dedup_exact_match_or_blank_witness :
    tableLineSet id [⟨none, [[some "x", some "y"]], "", "t"⟩] ≠ [] ∧
    pySplitlines (remove_table_line_duplicates id "a\nx y\n \nb"
        [⟨none, [[some "x", some "y"]], "", "t"⟩]) =
      (pySplitlines "a\nx y\n \nb").filter fun line =>
        !(lineMatchesTable id
            (tableLineSet id [⟨none, [[some "x", some "y"]], "", "t"⟩]) line) &&
          nonBlankLine line :=
  ⟨by decide,
    (dedup_exact_match_or_blank id "a\nx y\n \nb"
      [⟨none, [[some "x", some "y"]], "", "t"⟩]).2 (by decide)⟩

/-- **C4 (counterexample).** A whitespace-only line matches no table row yet
is removed by the deduplicator (here with `nfkc = id`, which agrees with NFKC
on this ASCII input), refuting "a line is removed iff it exactly matches a
normalized table row; any non-matching line is kept". -/
theorem blank_line_removed_without_match :
    remove_table_line_duplicates id "a\n \nb"
        [⟨none, [[some "x", some "y"]], "", "t"⟩] = "a\nb" ∧
    (pySplitlines "a\n \nb").contains " " = true ∧
    lineMatchesTable id
      (tableLineSet id [⟨none, [[some "x", some "y"]], "", "t"⟩]) " " = false ∧
    (pySplitlines (remove_table_line_duplicates id "a\n \nb"
        [⟨none, [[some "x", some "y"]], "", "t"⟩])).contains " " = false := by
  refine ⟨?_, by decide, by decide, ?_⟩
  · decide
  · decide

/-! ## `extract_text_without_tables`

A `pdfplumber` word is modelled by the attributes the source reads:
`text`, `x0`, `x1`, `top`, `bottom` (and the requested extra `size`).
Python's stable `list.sort` is modelled by a stable insertion sort: a stable
sort over a total preorder is uniquely determined by its input, so any stable
sort model is observationally the one of CPython. -/

structure Word where
  text : String
  x0 : ℚ
  x1 : ℚ
  top : ℚ
  bottom : ℚ
  size : ℚ
deriving DecidableEq

/-- Insert before the first element that is not strictly smaller (stable). -/
def insertBy (le : α → α → Bool) (x : α) : List α → List α
  | [] => [x]
  | y :: ys => if le x y then x :: y :: ys else y :: insertBy le x ys

/-- Stable insertion sort, modelling Python `list.sort(key=…)`. -/
def sortBy (le : α → α → Bool) : List α → List α
  | [] => []
  | x :: xs => insertBy le x (sortBy le xs)

/-- The sort key `(w["top"], w["x0"])`, lexicographically. -/
def wordKeyLe (a b : Word) : Bool :=
  decide (a.top < b.top) || (decide (a.top = b.top) && decide (a.x0 ≤ b.x0))

/-- The sort key `x["x0"]`. -/
def xKeyLe (a b : Word) : Bool := decide (a.x0 ≤ b.x0)

/-- `inside_any(bbox, table_bboxes, margin=0.5)` of the source: containment
(with margin) inside some table bbox. -/
def inside_any (x0 top x1 bottom : ℚ) (tableBBoxes : List Rect) (margin : ℚ) : Bool :=
  tableBBoxes.any fun t =>
    decide (t.x0 - margin ≤ x0) && decide (x1 ≤ t.x1 + margin) &&
      decide (t.y0 - margin ≤ top) && decide (bottom ≤ t.y1 + margin)

/-- `current_line.sort(key=x0); " ".join(texts)`. -/
def joinWords (ws : List Word) : String :=
  String.intercalate " " ((sortBy xKeyLe ws).map Word.text)

/-- The line-reconstruction loop of `extract_text_without_tables`:
`current` is the current line (never empty here), `lastTop` the running
vertical anchor, averaged on each merge. -/
def buildLinesGo (yTol : ℚ) (current : List Word) (lastTop : ℚ) :
    List Word → List String
  | [] => [joinWords current]
  | w :: rest =>
    if |w.top - lastTop| ≤ yTol then
      buildLinesGo yTol (current ++ [w]) ((lastTop + w.top) / 2) rest
    else joinWords current :: buildLinesGo yTol [w] w.top rest

/-- Line reconstruction over the sorted word list (`last_top is None` state:
the first word opens the first line; no words, no lines). -/
def buildLines (yTol : ℚ) : List Word → List String
  | [] => []
  | w :: rest => buildLinesGo yTol [w] w.top rest

/-- State of the `re.sub(r"-\s*\n\s*", "", text)` scan: after a `'-'` the
whitespace run is buffered until a newline decides the match. -/
inductive HyphState where
  | normal : HyphState
  | buffering : List Char → HyphState
  | dropping : HyphState

/-- `re.sub(r"-\s*\n\s*", "", text)`: a `'-'` followed by a whitespace run
containing a newline is removed together with the whole run. -/
def fixHyphGo : HyphState → List Char → List Char
  | .normal, [] => []
  | .buffering buf, [] => '-' :: buf
  | .dropping, [] => []
  | .normal, c :: rest =>
    if c = '-' then fixHyphGo (.buffering []) rest
    else c :: fixHyphGo .normal rest
  | .buffering buf, c :: rest =>
    if c = '\n' then fixHyphGo .dropping rest
    else if isPySpace c then fixHyphGo (.buffering (buf ++ [c])) rest
    else if c = '-' then '-' :: buf ++ fixHyphGo (.buffering []) rest
    else '-' :: buf ++ c :: fixHyphGo .normal rest
  | .dropping, c :: rest =>
    if isPySpace c then fixHyphGo .dropping rest
    else if c = '-' then fixHyphGo (.buffering []) rest
    else c :: fixHyphGo .normal rest

/-- `fix_hyphenation(text)` of the source. -/
def fix_hyphenation (s : String) : String := String.mk (fixHyphGo .normal s.data)

/-- `extract_text_without_tables(plumber_page, table_bboxes, iou_thresh, x_tol,
y_tol)` of the source, with the page's extracted word list standing for
`plumber_page.extract_words(...)`.  Note that, as in the source, the
`iouThresh` and `xTol` parameters appear in the signature but are never read:
word filtering is containment-based (`inside_any`, margin `0.5`). -/
def extract_text_without_tables (words : List Word) (tableBBoxes : List Rect)
    (iouThresh xTol yTol : ℚ) : String :=
  pyStrip (String.mk (collapseNlGo 0 (collapseSpaceTabGo false
    (fix_hyphenation (joinNl (buildLines yTol (sortBy wordKeyLe
      (words.filter fun w =>
        !(inside_any w.x0 w.top w.x1 w.bottom tableBBoxes (1/2))))))).data)))

/-- **C10.** The `iou_thresh` parameter of `extract_text_without_tables` has
no influence on the result: for any word list, table bboxes and tolerances,
any two threshold values produce identical text (the body never reads the
parameter; filtering is containment-based). -/
theorem extract_text_iou_thresh_irrelevant (words : List Word)
    (tableBBoxes : List Rect) (t₁ t₂ xTol yTol : ℚ) :
    extract_text_without_tables words tableBBoxes t₁ xTol yTol =
      extract_text_without_tables words tableBBoxes t₂ xTol yTol := rfl

/-! ## `get_text_and_tables`, page assembly and `text_to_documents`

One page of the input document is modelled by its observable extraction
outcomes (`PageInput`); `get_text_and_tables` then follows the source's
per-page loop.  `convert_pdf_to_text` assembles the page-delimited text and
re-splits it with `PAGE_SPLIT_RE`, modelled by an explicit scanner for the
concrete pattern `\n{0,2}=== 페이지\s*(\d+)\s*===\n{0,2}`. -/

/-- One entry of `page_data["tables"]`. -/
structure TableOut where
  table_index : Nat
  markdown : String
  raw_data : List (List (Option String))
  source : String
  bbox : Option Rect
deriving DecidableEq

/-- One `page_data` record of `get_text_and_tables`. -/
structure PageData where
  page : Nat
  text : String
  tables : List TableOut
deriving DecidableEq

/-- One page of the input document, by its observable extraction outcomes:
the `pdfplumber` word list (after `dedupe_chars`) and the three detection
strategies' outcomes. -/
structure PageInput where
  words : List Word
  fitz : Except Unit (List FitzCand)
  lattice : Except Unit (List CamTable)
  stream : Except Unit (List CamTable)

/-- The table items detected on one page. -/
def pageTableItems (inp : PageInput) : List TableItem :=
  extract_tables_with_fitz_and_camelot inp.fitz inp.lattice inp.stream

/-- The body of the per-page loop of `get_text_and_tables`: detect tables,
extract masked text (`iou_thresh=0.05`, margins/tolerances as in the call
site), deduplicate against the raw table rows, and record the tables with
1-based indices. -/
def processPage (nfkc : String → String) (pageIndex : Nat) (inp : PageInput) :
    PageData :=
  { page := pageIndex + 1
    text := remove_table_line_duplicates nfkc
      (extract_text_without_tables inp.words
        ((pageTableItems inp).filterMap fun t => t.bbox) (5/100) 2 3)
      (pageTableItems inp)
    tables := (pageTableItems inp).enum.map fun it =>
      { table_index := it.1 + 1, markdown := it.2.markdown,
        raw_data := it.2.raw_data, source := it.2.source, bbox := it.2.bbox } }

/-- `get_text_and_tables(pdf_stream, file_name)` of the source, over the
per-page extraction outcomes. -/
def get_text_and_tables (nfkc : String → String) (inputs : List PageInput) :
    List PageData :=
  inputs.enum.map fun p => processPage nfkc p.1 p.2

/-- `"=" * 20`. -/
def sepLine : String := String.mk (List.replicate 20 '=')

/-- `f"\n--- 테이블 {table_index} ({source}) ---\n" + markdown + "\n\n"`. -/
def tableBlock (t : TableOut) : String :=
  "\n--- 테이블 " ++ Nat.repr t.table_index ++ " (" ++ t.source ++ ") ---\n" ++
    t.markdown ++ "\n\n"

/-- The concatenation of the per-table blocks, in order. -/
def tableBlocksCat : List TableOut → String
  | [] => ""
  | t :: ts => tableBlock t ++ tableBlocksCat ts

/-- `f"[테이블 {n}개]\n"` followed by the per-table blocks. -/
def tablesBlock (tables : List TableOut) : String :=
  "[테이블 " ++ Nat.repr tables.length ++ "개]\n" ++ tableBlocksCat tables

/-- The text `convert_pdf_to_text` appends for one page: marker, optional
`[텍스트]` block, optional tables block, and the 20-`=` separator. -/
def pageBlock (p : PageData) : String :=
  "=== 페이지 " ++ Nat.repr p.page ++ " ===\n\n" ++
    (if p.text ≠ "" then "[텍스트]\n" ++ p.text ++ "\n\n" else "") ++
    (if p.tables ≠ [] then tablesBlock p.tables else "") ++
    sepLine ++ "\n\n"

/-- The full `txt_content` accumulated by `convert_pdf_to_text`
(`txt_content += …` per page, in order). -/
def assembleText : List PageData → String
  | [] => ""
  | p :: ps => pageBlock p ++ assembleText ps

/-- How many of the at most two leading newlines `\n{0,2}` consumes (greedy). -/
def nlCount2 (cs : List Char) : Nat :=
  if cs.head? = some '\n' then
    if cs.tail.head? = some '\n' then 2 else 1
  else 0

/-- The trailing greedy `\n{0,2}` of `PAGE_SPLIT_RE`. -/
def dropUpTo2Nl (cs : List Char) : List Char := cs.drop (nlCount2 cs)

/-- Matching `=== 페이지\s*(\d+)\s*===\n{0,2}` at the head of `cs`, returning
the captured digit group and the remainder after the match. -/
def matchAfterNl (cs : List Char) : Option (String × List Char) :=
  (stripPrefixChars "=== 페이지".data cs).bind fun cs1 =>
    if (cs1.dropWhile isPySpace).takeWhile Char.isDigit = [] then none
    else
      (stripPrefixChars "===".data
          (((cs1.dropWhile isPySpace).drop
              ((cs1.dropWhile isPySpace).takeWhile Char.isDigit).length).dropWhile
            isPySpace)).bind
        fun cs4 =>
          some (String.mk ((cs1.dropWhile isPySpace).takeWhile Char.isDigit),
            dropUpTo2Nl cs4)

/-- One attempted match of `PAGE_SPLIT_RE` at the head of `cs`.  The greedy
`\n{0,2}` consumes up to two leading newlines; the backtracking alternatives
with fewer newlines can never succeed, since the rest of the pattern then
requires a literal `'='` where a `'\n'` stands, so they are omitted. -/
def matchMarkerAt (cs : List Char) : Option (String × List Char) :=
  matchAfterNl (cs.drop (nlCount2 cs))

/-- Leftmost match of `PAGE_SPLIT_RE`: the text before the match, the
captured group, and the remainder after the match. -/
def findMarker : List Char → Option (List Char × String × List Char)
  | [] => none
  | c :: cs =>
    match matchMarkerAt (c :: cs) with
    | some (d, rest) => some ([], d, rest)
    | none =>
      match findMarker cs with
      | some (pre, d, rest) => some (c :: pre, d, rest)
      | none => none

/-- `re.split` scanning loop: every match consumes at least one character, so
the input length bounds the number of matches (`fuel`). -/
def pageSplitGo : Nat → List Char → List String
  | 0, cs => [String.mk cs]
  | fuel + 1, cs =>
    match findMarker cs with
    | none => [String.mk cs]
    | some (pre, d, rest) => String.mk pre :: d :: pageSplitGo fuel rest

/-- `PAGE_SPLIT_RE.split(text_content)`: alternating segments and captured
page-number groups. -/
def pageSplit (s : String) : List String := pageSplitGo (s.data.length + 1) s.data

/-- The odd/even pairing of `for i in range(1, len(parts), 2)`:
`(parts[i], parts[i+1] if i+1 < len(parts) else "")`. -/
def oddPairs : List String → List (String × String)
  | [] => []
  | [h] => [(h, "")]
  | h :: c :: rest => (h, c) :: oddPairs rest

/-- Matching `페이지\s*(\d+)` at the head of `cs`
(for `re.search(r"페이지\s*(\d+)", page_header)`). -/
def matchPageNumAt (cs : List Char) : Option Nat :=
  (stripPrefixChars "페이지".data cs).bind fun cs1 =>
    if (cs1.dropWhile isPySpace).takeWhile Char.isDigit = [] then none
    else some (digitsToNat (String.mk ((cs1.dropWhile isPySpace).takeWhile Char.isDigit)))

/-- The scan of `re.search(r"페이지\s*(\d+)", …)`. -/
def searchPageNumGo : List Char → Option Nat
  | [] => none
  | c :: rest =>
    match matchPageNumAt (c :: rest) with
    | some n => some n
    | none => searchPageNumGo rest

/-- `int(match.group(1)) if match else None`. -/
def searchPageNum (s : String) : Option Nat := searchPageNumGo s.data

/-- A `langchain` `Document` with the metadata fields the source writes. -/
structure Document where
  page_content : String
  source : String
  page : Option Nat
  chunk_index : Nat
  is_page_split : Bool
deriving DecidableEq

/-- Model of the external `RecursiveCharacterTextSplitter.split_text`
(`langchain_text_splitters` — an external dependency, not repository code).
The only regime of its behaviour the theorems below rely on — and hence the
only regime modelled — is the one for a text whose length does not exceed the
chunk size: it is returned as a single chunk stripped of surrounding
whitespace, or as no chunk at all when it is entirely whitespace.  Longer
texts are split by the library into several bounded, overlapping chunks;
that regime is represented here by the same single-chunk value and is
exercised by no theorem in this file. -/
def splitTextModel (chunkSize chunkOverlap : Nat) (text : String) : List String :=
  if pyStrip text = "" then [] else [pyStrip text]

/-- The documents emitted for one `(page_header, page_content)` pair of
`text_to_documents` (the `continue` on blank contents, the chunk loop, and
the metadata construction). -/
def pageDocs (fileName : String) (chunkSize chunkOverlap : Nat)
    (pair : String × String) : List Document :=
  if pyStrip pair.2 = "" then []
  else
    (splitTextModel chunkSize chunkOverlap pair.2).enum.map fun ic =>
      { page_content := pyStrip ic.2
        source := fileName
        page := searchPageNum pair.1
        chunk_index := ic.1
        is_page_split := 1 < (splitTextModel chunkSize chunkOverlap pair.2).length }

/-- `text_to_documents(text_content, file_name, chunk_size, chunk_overlap)`
of the source. -/
def text_to_documents (textContent fileName : String)
    (chunkSize chunkOverlap : Nat) : List Document :=
  (oddPairs (pageSplit textContent).tail).flatMap
    (pageDocs fileName chunkSize chunkOverlap)

/-- The assembler+chunker tail of `convert_pdf_to_text`, from the per-page
records on. -/
def documentsOfPages (pages : List PageData) (fileName : String) : List Document :=
  text_to_documents (assembleText pages) fileName 800 100

/-- `convert_pdf_to_text(pdf_stream, file_name)` of the source. -/
def convert_pdf_to_text (nfkc : String → String) (inputs : List PageInput)
    (fileName : String) : List Document :=
  documentsOfPages (get_text_and_tables nfkc inputs) fileName

/-- The Document produced for a page with no text and no tables: the bare
20-`=` separator line, page metadata `none`. -/
def sepDoc (fileName : String) : Document :=
  { page_content := sepLine, source := fileName, page := none,
    chunk_index := 0, is_page_split := false }

section PageSplitScan

/-- The marker text `convert_pdf_to_text` writes for page `k`, as characters. -/
def markerChars (k : Nat) : List Char :=
  ("=== 페이지 " ++ Nat.repr k ++ " ===\n\n").data

/-- The 20-`=` separator, as characters. -/
def eqChars : List Char := List.replicate 20 '='

/-- The page body between the marker and the separator, as characters. -/
def bodyChars (p : PageData) : List Char :=
  ((if p.text ≠ "" then "[텍스트]\n" ++ p.text ++ "\n\n" else "") ++
    (if p.tables ≠ [] then tablesBlock p.tables else "")).data

lemma digitChar_isDigit {m : Nat} (h : m < 10) : (Nat.digitChar m).isDigit = true := by
  interval_cases m <;> rfl

lemma toDigitsCore_all_digits :
    ∀ (fuel n : Nat) (acc : List Char), (∀ c ∈ acc, c.isDigit = true) →
      ∀ c ∈ Nat.toDigitsCore 10 fuel n acc, c.isDigit = true := by
  intro fuel
  induction fuel with
  | zero => intro n acc hacc; simpa [Nat.toDigitsCore] using hacc
  | succ fuel ih =>
    intro n acc hacc c hc
    simp only [Nat.toDigitsCore] at hc
    split at hc
    · rcases List.mem_cons.mp hc with rfl | h
      · exact digitChar_isDigit (Nat.mod_lt n (by norm_num))
      · exact hacc c h
    · refine ih (n / 10) _ ?_ c hc
      intro d hd
      rcases List.mem_cons.mp hd with rfl | h
      · exact digitChar_isDigit (Nat.mod_lt n (by norm_num))
      · exact hacc d h

lemma repr_data_digits (n : Nat) : ∀ c ∈ (Nat.repr n).data, c.isDigit = true := by
  intro c hc
  exact toDigitsCore_all_digits (n + 1) n [] (by simp) c hc

lemma toDigitsCore_ne_nil : ∀ (fuel n : Nat) (acc : List Char),
    Nat.toDigitsCore 10 (fuel + 1) n acc ≠ [] := by
  intro fuel
  induction fuel with
  | zero =>
    intro n acc
    simp only [Nat.toDigitsCore]
    split <;> simp [Nat.toDigitsCore]
  | succ fuel ih =>
    intro n acc
    simp only [Nat.toDigitsCore]
    split
    · simp
    · exact ih (n / 10) _

lemma repr_data_ne_nil (n : Nat) : (Nat.repr n).data ≠ [] :=
  toDigitsCore_ne_nil n n []

lemma digit_not_pySpace {c : Char} (h : c.isDigit = true) : isPySpace c = false := by
  cases hsp : isPySpace c
  · rfl
  · exfalso
    simp only [isPySpace, Bool.or_eq_true, decide_eq_true_eq] at hsp
    rcases hsp with ((((rfl | rfl) | rfl) | rfl) | rfl) | rfl <;> exact absurd h (by decide)

lemma digit_ne_marker_chars {c : Char} (h : c.isDigit = true) :
    c ≠ '페' ∧ c ≠ '\n' ∧ c ≠ '=' ∧ c ≠ ' ' := by
  refine ⟨?_, ?_, ?_, ?_⟩ <;> (rintro rfl; exact absurd h (by decide))

lemma stripPrefixChars_eq_some {p cs r : List Char} :
    stripPrefixChars p cs = some r ↔ cs = p ++ r := by
  induction p generalizing cs with
  | nil => simp [stripPrefixChars, eq_comm]
  | cons x p ih =>
    cases cs with
    | nil => simp [stripPrefixChars]
    | cons c cs =>
      simp only [stripPrefixChars]
      by_cases hc : c = x
      · subst hc
        rw [if_pos rfl, ih]
        simp
      · rw [if_neg hc]
        simp [hc]

lemma stripPrefixChars_append (p r : List Char) :
    stripPrefixChars p (p ++ r) = some r :=
  stripPrefixChars_eq_some.mpr rfl

lemma takeWhile_digits_append {l : List Char} (hall : ∀ c ∈ l, c.isDigit = true)
    {x : Char} (hx : x.isDigit = false) (r : List Char) :
    (l ++ x :: r).takeWhile Char.isDigit = l := by
  induction l with
  | nil => simp [List.takeWhile_cons, hx]
  | cons a l ih =>
    rw [List.cons_append, List.takeWhile_cons, if_pos (hall a (List.mem_cons_self _ _)),
      ih fun c hc => hall c (List.mem_cons_of_mem _ hc)]

lemma markerChars_append_decomp (k : Nat) (t : List Char) :
    markerChars k ++ t =
      "=== 페이지".data ++ (' ' ::
        ((Nat.repr k).data ++ (' ' :: '=' :: '=' :: '=' :: '\n' :: '\n' :: t))) := by
  unfold markerChars
  rw [String.data_append, String.data_append]
  have h1 : ("=== 페이지 " : String).data = "=== 페이지".data ++ [' '] := rfl
  have h2 : (" ===\n\n" : String).data = ' ' :: '=' :: '=' :: '=' :: '\n' :: '\n' :: [] := rfl
  rw [h1, h2]
  simp

lemma matchAfterNl_marker (k : Nat) (t : List Char) :
    matchAfterNl (markerChars k ++ t) = some (Nat.repr k, t) := by
  have hdig := repr_data_digits k
  obtain ⟨d0, ds, hds⟩ : ∃ d0 ds, (Nat.repr k).data = d0 :: ds := by
    cases h : (Nat.repr k).data with
    | nil => exact absurd h (repr_data_ne_nil k)
    | cons a l => exact ⟨a, l, rfl⟩
  have hd0 : d0.isDigit = true := hdig d0 (by rw [hds]; exact List.mem_cons_self _ _)
  unfold matchAfterNl
  rw [markerChars_append_decomp, stripPrefixChars_append, Option.some_bind]
  have hdrop : ((' ' : Char) ::
      ((Nat.repr k).data ++ (' ' :: '=' :: '=' :: '=' :: '\n' :: '\n' :: t))).dropWhile
        isPySpace = (Nat.repr k).data ++ (' ' :: '=' :: '=' :: '=' :: '\n' :: '\n' :: t) := by
    rw [List.dropWhile_cons, if_pos (by decide)]
    rw [hds, List.cons_append, List.dropWhile_cons, if_neg (by simp [digit_not_pySpace hd0])]
  rw [hdrop]
  have htake : ((Nat.repr k).data ++
      (' ' :: '=' :: '=' :: '=' :: '\n' :: '\n' :: t)).takeWhile Char.isDigit =
      (Nat.repr k).data :=
    takeWhile_digits_append hdig (by decide) _
  rw [htake]
  rw [if_neg (repr_data_ne_nil k)]
  rw [List.drop_left]
  have hdrop2 : ((' ' : Char) :: '=' :: '=' :: '=' :: '\n' :: '\n' :: t).dropWhile
      isPySpace = '=' :: '=' :: '=' :: '\n' :: '\n' :: t := by
    rw [List.dropWhile_cons, if_pos (by decide), List.dropWhile_cons, if_neg (by decide)]
  rw [hdrop2]
  have h3 : ('=' : Char) :: '=' :: '=' :: '\n' :: '\n' :: t =
      "===".data ++ ('\n' :: '\n' :: t) := rfl
  rw [h3, stripPrefixChars_append, Option.some_bind]
  have h4 : dropUpTo2Nl ('\n' :: '\n' :: t) = t := rfl
  rw [h4, string_mk_data]

lemma matchAfterNl_mem {ds : List Char} {r : String × List Char}
    (h : matchAfterNl ds = some r) : '페' ∈ ds.take 5 := by
  unfold matchAfterNl at h
  cases hsp : stripPrefixChars "=== 페이지".data ds with
  | none => rw [hsp] at h; simp at h
  | some cs1 =>
    have hds : ds = "=== 페이지".data ++ cs1 := stripPrefixChars_eq_some.mp hsp
    subst hds
    rw [List.take_append_eq_append_take]
    apply List.mem_append_left
    decide

lemma nlCount2_le_two (cs : List Char) : nlCount2 cs ≤ 2 := by
  unfold nlCount2
  split_ifs <;> norm_num

lemma matchMarkerAt_mem {cs : List Char} {r : String × List Char}
    (h : matchMarkerAt cs = some r) : '페' ∈ cs.take 7 := by
  unfold matchMarkerAt at h
  have h5 := matchAfterNl_mem h
  have hle := nlCount2_le_two cs
  have h1 : (cs.drop (nlCount2 cs)).take 5 = (cs.take (nlCount2 cs + 5)).drop (nlCount2 cs) :=
    List.take_drop (nlCount2 cs) 5 cs
  rw [h1] at h5
  have h2 : '페' ∈ cs.take (nlCount2 cs + 5) := List.mem_of_mem_drop h5
  have h3 : cs.take (nlCount2 cs + 5) = (cs.take 7).take (nlCount2 cs + 5) := by
    rw [List.take_take, min_eq_left (by omega)]
  rw [h3] at h2
  exact List.mem_of_mem_take h2

lemma findMarker_cons_some {c : Char} {cs : List Char} {d : String} {rest : List Char}
    (h : matchMarkerAt (c :: cs) = some (d, rest)) :
    findMarker (c :: cs) = some ([], d, rest) := by
  simp [findMarker, h]

lemma findMarker_cons_none {c : Char} {cs : List Char}
    (h : matchMarkerAt (c :: cs) = none) :
    findMarker (c :: cs) =
      (findMarker cs).map fun pdr => (c :: pdr.1, pdr.2.1, pdr.2.2) := by
  simp only [findMarker, h]
  cases hf : findMarker cs with
  | none => rfl
  | some pdr =>
    obtain ⟨pre, d, rest⟩ := pdr
    rfl

lemma findMarker_none_clean {Z : List Char} (hZ : '페' ∉ Z) : findMarker Z = none := by
  induction Z with
  | nil => rfl
  | cons c Z ih =>
    have hnone : matchMarkerAt (c :: Z) = none := by
      cases hm : matchMarkerAt (c :: Z) with
      | none => rfl
      | some r =>
        exact absurd (List.mem_of_mem_take (matchMarkerAt_mem hm)) hZ
    rw [findMarker_cons_none hnone, ih fun h => hZ (List.mem_cons_of_mem _ h)]
    rfl

lemma findMarker_append_clean (X Y : List Char) (hX : '페' ∉ X)
    (hY : '페' ∉ Y.take 6) :
    findMarker (X ++ Y) =
      (findMarker Y).map fun pdr => (X ++ pdr.1, pdr.2.1, pdr.2.2) := by
  induction X with
  | nil =>
    rw [List.nil_append]
    cases hf : findMarker Y with
    | none => rfl
    | some pdr =>
      obtain ⟨pre, d, rest⟩ := pdr
      simp
  | cons c X ih =>
    have hcX : '페' ∉ X := fun h => hX (List.mem_cons_of_mem _ h)
    have hnone : matchMarkerAt (c :: (X ++ Y)) = none := by
      cases hm : matchMarkerAt (c :: (X ++ Y)) with
      | none => rfl
      | some r =>
        exfalso
        have hmem := matchMarkerAt_mem hm
        rw [← List.cons_append, List.take_append_eq_append_take] at hmem
        rcases List.mem_append.mp hmem with hin | hin
        · exact hX (List.mem_of_mem_take hin)
        · have hlen : 7 - (c :: X).length ≤ 6 := by
            rw [List.length_cons]
            omega
          have heq : Y.take (7 - (c :: X).length) =
              (Y.take 6).take (7 - (c :: X).length) := by
            rw [List.take_take, min_eq_left hlen]
          rw [heq] at hin
          exact hY (List.mem_of_mem_take hin)
    rw [List.cons_append]
    rw [findMarker_cons_none hnone]
    rw [ih hcX]
    cases hf : findMarker Y with
    | none => rfl
    | some pdr =>
      obtain ⟨pre, d, rest⟩ := pdr
      rfl

lemma markerChars_take4 (k : Nat) (t : List Char) :
    (markerChars k ++ t).take 4 = ['=', '=', '=', ' '] := by
  rw [markerChars_append_decomp]
  rfl

lemma matchMarkerAt_nlnl_marker (k : Nat) (R : List Char) :
    matchMarkerAt ('\n' :: '\n' :: (markerChars k ++ R)) = some (Nat.repr k, R) := by
  unfold matchMarkerAt
  have h0 : nlCount2 ('\n' :: '\n' :: (markerChars k ++ R)) = 2 := rfl
  rw [h0]
  exact matchAfterNl_marker k R

lemma findMarker_clean_marker (X : List Char) (hX : '페' ∉ X) (k : Nat)
    (R : List Char) :
    findMarker (X ++ '\n' :: '\n' :: (markerChars k ++ R)) =
      some (X, Nat.repr k, R) := by
  have hY6 : '페' ∉ ('\n' :: '\n' :: (markerChars k ++ R)).take 6 := by
    intro hmem
    have : ('\n' :: '\n' :: (markerChars k ++ R)).take 6 =
        '\n' :: '\n' :: (markerChars k ++ R).take 4 := rfl
    rw [this, markerChars_take4] at hmem
    exact absurd hmem (by decide)
  have hfY : findMarker ('\n' :: '\n' :: (markerChars k ++ R)) =
      some ([], Nat.repr k, R) :=
    findMarker_cons_some (matchMarkerAt_nlnl_marker k R)
  rw [findMarker_append_clean X _ hX hY6, hfY]
  simp

lemma markerChars_ne_nil (k : Nat) : markerChars k ≠ [] := by
  intro h
  have h4 := markerChars_take4 k []
  rw [List.append_nil, h] at h4
  simp at h4

lemma findMarker_marker (k : Nat) (R : List Char) :
    findMarker (markerChars k ++ R) = some ([], Nat.repr k, R) := by
  have hm : matchMarkerAt (markerChars k ++ R) = some (Nat.repr k, R) := by
    unfold matchMarkerAt
    have h0 : nlCount2 (markerChars k ++ R) = 0 := by
      unfold nlCount2
      rw [markerChars_append_decomp]
      rfl
    rw [h0, List.drop_zero]
    exact matchAfterNl_marker k R
  cases hcs : markerChars k ++ R with
  | nil =>
    exact absurd (List.append_eq_nil.mp hcs).1 (markerChars_ne_nil k)
  | cons c cs =>
    rw [← hcs]
    rw [hcs] at hm ⊢
    exact findMarker_cons_some hm

end PageSplitScan

section PageParse

lemma string_nn_data : ("\n\n" : String).data = ['\n', '\n'] := rfl

lemma pageBlock_data (p : PageData) :
    (pageBlock p).data = markerChars p.page ++ (bodyChars p ++ (eqChars ++ ['\n', '\n'])) := by
  have hsep : sepLine.data = eqChars := rfl
  unfold pageBlock markerChars bodyChars
  simp only [String.data_append, hsep, string_nn_data, List.append_assoc]

/-- The character stream of the assembled text, block by block. -/
def blocksChars : List PageData → List Char
  | [] => []
  | p :: ps => (pageBlock p).data ++ blocksChars ps

lemma assembleText_data (ps : List PageData) : (assembleText ps).data = blocksChars ps := by
  induction ps with
  | nil => rfl
  | cons p ps ih => simp only [assembleText, blocksChars, String.data_append, ih]

lemma blocksChars_length (ps : List PageData) : ps.length ≤ (blocksChars ps).length := by
  induction ps with
  | nil => simp [blocksChars]
  | cons p ps ih =>
    simp only [blocksChars, List.length_append, List.length_cons]
    have h1 : 1 ≤ (pageBlock p).data.length := by
      rw [pageBlock_data]
      cases hm : markerChars p.page with
      | nil => exact absurd hm (markerChars_ne_nil p.page)
      | cons a l => simp
    omega

/-- The `re.split` parts after the leading empty segment and first capture:
alternating contents and further captures. -/
def expectedParts : List PageData → List Char → List String
  | [], X => [String.mk (X ++ (eqChars ++ ['\n', '\n']))]
  | p :: ps, X => String.mk (X ++ eqChars) :: Nat.repr p.page :: expectedParts ps (bodyChars p)

lemma eqChars_no_pe : '페' ∉ eqChars := by decide

lemma pageSplitGo_clean :
    ∀ (ps : List PageData) (X : List Char) (fuel : Nat),
      ps.length + 1 ≤ fuel → '페' ∉ X → (∀ p ∈ ps, '페' ∉ bodyChars p) →
      pageSplitGo fuel (X ++ (eqChars ++ '\n' :: '\n' :: blocksChars ps)) =
        expectedParts ps X := by
  intro ps
  induction ps with
  | nil =>
    intro X fuel hfuel hX _
    obtain ⟨f, rfl⟩ : ∃ f, fuel = f + 1 := ⟨fuel - 1, by omega⟩
    have hclean : '페' ∉ X ++ (eqChars ++ '\n' :: '\n' :: blocksChars []) := by
      intro h
      rcases List.mem_append.mp h with h | h
      · exact hX h
      rcases List.mem_append.mp h with h | h
      · exact eqChars_no_pe h
      · simp [blocksChars] at h
    simp only [pageSplitGo, findMarker_none_clean hclean]
    rfl
  | cons p ps ih =>
    intro X fuel hfuel hX hps
    obtain ⟨f, rfl⟩ : ∃ f, fuel = f + 1 := ⟨fuel - 1, by omega⟩
    have hshape : X ++ (eqChars ++ '\n' :: '\n' :: blocksChars (p :: ps)) =
        (X ++ eqChars) ++ '\n' :: '\n' :: (markerChars p.page ++
          (bodyChars p ++ (eqChars ++ '\n' :: '\n' :: blocksChars ps))) := by
      simp [blocksChars, pageBlock_data, List.append_assoc]
    rw [hshape]
    have hXeq : '페' ∉ X ++ eqChars := by
      intro h
      rcases List.mem_append.mp h with h | h
      · exact hX h
      · exact eqChars_no_pe h
    have hfind := findMarker_clean_marker (X ++ eqChars) hXeq p.page
      (bodyChars p ++ (eqChars ++ '\n' :: '\n' :: blocksChars ps))
    simp only [pageSplitGo, hfind]
    rw [ih (bodyChars p) f (by simp only [List.length_cons] at hfuel; omega)
      (hps p (List.mem_cons_self _ _)) (fun q hq => hps q (List.mem_cons_of_mem _ hq))]
    rfl

lemma pageSplitGo_succ_some {fuel : Nat} {cs pre : List Char} {d : String}
    {rest : List Char} (h : findMarker cs = some (pre, d, rest)) :
    pageSplitGo (fuel + 1) cs = String.mk pre :: d :: pageSplitGo fuel rest := by
  show (match findMarker cs with
    | none => [String.mk cs]
    | some (pre, d, rest) => String.mk pre :: d :: pageSplitGo fuel rest) = _
  rw [h]

lemma pageSplit_assemble (p : PageData) (ps : List PageData)
    (hclean : ∀ q ∈ p :: ps, '페' ∉ bodyChars q) :
    pageSplit (assembleText (p :: ps)) =
      "" :: Nat.repr p.page :: expectedParts ps (bodyChars p) := by
  unfold pageSplit
  rw [assembleText_data]
  have hshape : blocksChars (p :: ps) =
      markerChars p.page ++ (bodyChars p ++ (eqChars ++ '\n' :: '\n' :: blocksChars ps)) := by
    simp [blocksChars, pageBlock_data, List.append_assoc]
  rw [hshape]
  rw [pageSplitGo_succ_some (findMarker_marker p.page _)]
  have hfuel : ps.length + 1 ≤ (markerChars p.page ++
      (bodyChars p ++ (eqChars ++ '\n' :: '\n' :: blocksChars ps))).length := by
    have h1 := blocksChars_length ps
    simp only [List.length_append, List.length_cons, eqChars, List.length_replicate]
    omega
  rw [pageSplitGo_clean ps (bodyChars p) _ hfuel (hclean p (List.mem_cons_self _ _))
    (fun q hq => hclean q (List.mem_cons_of_mem _ hq))]

/-- The `(header, content)` pairs that the odd/even pairing recovers from the
assembled text of a non-empty page list: last page keeps the trailing
newlines, earlier pages lose them to the following marker's `\n{0,2}`. -/
def pairList : PageData → List PageData → List (String × String)
  | p, [] => [(Nat.repr p.page, String.mk (bodyChars p ++ (eqChars ++ ['\n', '\n'])))]
  | p, q :: ps => (Nat.repr p.page, String.mk (bodyChars p ++ eqChars)) :: pairList q ps

/-- `pairList`, starting from a possibly-empty page list. -/
def pairsOf : List PageData → List (String × String)
  | [] => []
  | p :: ps => pairList p ps

lemma oddPairs_expected : ∀ (ps : List PageData) (p : PageData),
    oddPairs (Nat.repr p.page :: expectedParts ps (bodyChars p)) = pairList p ps := by
  intro ps
  induction ps with
  | nil => intro p; rfl
  | cons q ps ih =>
    intro p
    show oddPairs (Nat.repr p.page :: String.mk (bodyChars p ++ eqChars) ::
      (Nat.repr q.page :: expectedParts ps (bodyChars q))) = _
    rw [show ∀ (a b : String) rest, oddPairs (a :: b :: rest) = (a, b) :: oddPairs rest
      from fun a b rest => rfl]
    rw [ih q]
    rfl

lemma documentsOfPages_eq (fileName : String) (p : PageData) (ps : List PageData)
    (hclean : ∀ q ∈ p :: ps, '페' ∉ bodyChars q) :
    documentsOfPages (p :: ps) fileName =
      (pairList p ps).flatMap (pageDocs fileName 800 100) := by
  unfold documentsOfPages text_to_documents
  rw [pageSplit_assemble p ps hclean, List.tail_cons, oddPairs_expected]

lemma matchPageNumAt_none {cs : List Char} (h : '페' ∉ cs) : matchPageNumAt cs = none := by
  unfold matchPageNumAt
  cases hsp : stripPrefixChars "페이지".data cs with
  | none => rfl
  | some cs1 =>
    exfalso
    apply h
    rw [stripPrefixChars_eq_some.mp hsp]
    exact List.mem_append_left _ (by decide)

lemma searchPageNumGo_none : ∀ {cs : List Char}, '페' ∉ cs → searchPageNumGo cs = none := by
  intro cs
  induction cs with
  | nil => intro _; rfl
  | cons c rest ih =>
    intro h
    have h1 : matchPageNumAt (c :: rest) = none := matchPageNumAt_none h
    simp only [searchPageNumGo, h1]
    exact ih fun hm => h (List.mem_cons_of_mem _ hm)

lemma searchPageNum_repr (k : Nat) : searchPageNum (Nat.repr k) = none := by
  apply searchPageNumGo_none
  intro hmem
  exact absurd (repr_data_digits k _ hmem) (by decide)

lemma pageDocs_sep_mid (fileName : String) (k : Nat) :
    pageDocs fileName 800 100 (Nat.repr k, String.mk eqChars) = [sepDoc fileName] := by
  have h1 : pageDocs fileName 800 100 (Nat.repr k, String.mk eqChars) =
      [{ page_content := sepLine, source := fileName,
         page := searchPageNum (Nat.repr k), chunk_index := 0,
         is_page_split := false }] := rfl
  rw [h1, searchPageNum_repr]
  rfl

lemma pageDocs_sep_last (fileName : String) (k : Nat) :
    pageDocs fileName 800 100 (Nat.repr k, String.mk (eqChars ++ ['\n', '\n'])) =
      [sepDoc fileName] := by
  have h1 : pageDocs fileName 800 100 (Nat.repr k, String.mk (eqChars ++ ['\n', '\n'])) =
      [{ page_content := sepLine, source := fileName,
         page := searchPageNum (Nat.repr k), chunk_index := 0,
         is_page_split := false }] := rfl
  rw [h1, searchPageNum_repr]
  rfl

lemma bodyChars_empty {p : PageData} (ht : p.text = "") (htab : p.tables = []) :
    bodyChars p = [] := by
  unfold bodyChars
  rw [if_neg (by simp [ht]), if_neg (by simp [htab])]
  rfl

lemma pairList_flatMap_empty (fileName : String) :
    ∀ (ps : List PageData) (p : PageData), bodyChars p = [] →
      (∀ q ∈ ps, bodyChars q = []) →
      (pairList p ps).flatMap (pageDocs fileName 800 100) =
        List.replicate (ps.length + 1) (sepDoc fileName) := by
  intro ps
  induction ps with
  | nil =>
    intro p hp _
    simp only [pairList, hp, List.nil_append, List.flatMap_cons, List.flatMap_nil,
      List.append_nil]
    rw [pageDocs_sep_last]
    rfl
  | cons q ps ih =>
    intro p hp hq
    simp only [pairList, hp, List.nil_append, List.flatMap_cons]
    rw [pageDocs_sep_mid, ih q (hq q (List.mem_cons_self _ _))
      (fun r hr => hq r (List.mem_cons_of_mem _ hr))]
    rfl

lemma pairsOf_flatMap_sep (fileName : String) :
    ∀ (pre : List PageData) (pk : PageData) (post : List PageData),
      bodyChars pk = [] →
      ∃ l r, (pairsOf (pre ++ pk :: post)).flatMap (pageDocs fileName 800 100) =
        l ++ sepDoc fileName :: r := by
  intro pre
  induction pre with
  | nil =>
    intro pk post hbody
    cases post with
    | nil =>
      refine ⟨[], [], ?_⟩
      show (pairList pk []).flatMap _ = _
      simp only [pairList, hbody, List.nil_append, List.flatMap_cons, List.flatMap_nil,
        List.append_nil]
      rw [pageDocs_sep_last]
    | cons q qs =>
      refine ⟨[], (pairList q qs).flatMap (pageDocs fileName 800 100), ?_⟩
      show (pairList pk (q :: qs)).flatMap _ = _
      simp only [pairList, hbody, List.nil_append, List.flatMap_cons]
      rw [pageDocs_sep_mid]
      rfl
  | cons a pre ih =>
    intro pk post hbody
    obtain ⟨l, r, hlr⟩ := ih pk post hbody
    cases hgl : pre ++ pk :: post with
    | nil => exact absurd hgl (by simp)
    | cons b bs =>
      rw [hgl] at hlr
      refine ⟨pageDocs fileName 800 100
        (Nat.repr a.page, String.mk (bodyChars a ++ eqChars)) ++ l, r, ?_⟩
      show (pairList a (pre ++ pk :: post)).flatMap _ = _
      rw [hgl]
      simp only [pairList, List.flatMap_cons]
      rw [show (pairsOf (b :: bs)).flatMap (pageDocs fileName 800 100) =
          (pairList b bs).flatMap (pageDocs fileName 800 100) from rfl] at hlr
      rw [hlr, List.append_assoc]

lemma pageDocs_page {fileName : String} {cs cd : Nat} {pair : String × String}
    {d : Document} (hd : d ∈ pageDocs fileName cs cd pair) :
    d.page = searchPageNum pair.1 := by
  unfold pageDocs at hd
  split at hd
  · exact absurd hd (List.not_mem_nil d)
  · simp only [List.mem_map] at hd
    obtain ⟨ic, _, rfl⟩ := hd
    rfl

lemma pairList_fst : ∀ (ps : List PageData) (p : PageData) (pair : String × String),
    pair ∈ pairList p ps → ∃ k, pair.1 = Nat.repr k := by
  intro ps
  induction ps with
  | nil =>
    intro p pair h
    rcases List.mem_singleton.mp h with rfl
    exact ⟨p.page, rfl⟩
  | cons q ps ih =>
    intro p pair h
    rcases List.mem_cons.mp h with rfl | h
    · exact ⟨p.page, rfl⟩
    · exact ih q pair h

end PageParse

/-- **C1 (amended).** A page with empty deduplicated text and no tables does
not vanish from the output: it contributes exactly one separator-only
Document (`"="*20`), and — since the captured page headers are bare digit
strings in which `re.search(r"페이지\s*(\d+)", …)` never matches — every
emitted Document carries page metadata `none` (so in particular none carries
that page's number).  Hypothesis: no page body contains the marker character
`'페'`, which would let free text be mistaken for a page marker. -/
theorem empty_page_contributes_separator (fileName : String)
    (pre post : List PageData) (pk : PageData)
    (htext : pk.text = "") (htables : pk.tables = [])
    (hclean : ∀ q ∈ pre ++ pk :: post, '페' ∉ bodyChars q) :
    (∃ l r, documentsOfPages (pre ++ pk :: post) fileName =
      l ++ sepDoc fileName :: r) ∧
    ∀ d ∈ documentsOfPages (pre ++ pk :: post) fileName, d.page = none := by
  have hbody := bodyChars_empty htext htables
  cases hpp : pre ++ pk :: post with
  | nil => exact absurd hpp (by simp)
  | cons b bs =>
    have hclean2 : ∀ q ∈ b :: bs, '페' ∉ bodyChars q := hpp ▸ hclean
    have hdocs : documentsOfPages (b :: bs) fileName =
        (pairList b bs).flatMap (pageDocs fileName 800 100) :=
      documentsOfPages_eq fileName b bs hclean2
    constructor
    · obtain ⟨l, r, hlr⟩ := pairsOf_flatMap_sep fileName pre pk post hbody
      rw [hpp] at hlr
      exact ⟨l, r, by rw [hdocs]; exact hlr⟩
    · intro d hd
      rw [hdocs] at hd
      simp only [List.mem_flatMap] at hd
      obtain ⟨pair, hpair, hdp⟩ := hd
      obtain ⟨k, hk⟩ := pairList_fst bs b pair hpair
      rw [pageDocs_page hdp, hk, searchPageNum_repr]

/-- Witness for **C1 (amended)**: a two-page document whose second page is
empty; its output ends with the separator Document. -/
theorem empty_page_contributes_separator_witness :
    (∀ q ∈ [(⟨1, "hello", []⟩ : PageData)] ++ (⟨2, "", []⟩ : PageData) :: [],
      '페' ∉ bodyChars q) ∧
    ((∃ l r, documentsOfPages ([(⟨1, "hello", []⟩ : PageData)] ++
        (⟨2, "", []⟩ : PageData) :: []) "f" = l ++ sepDoc "f" :: r) ∧
      ∀ d ∈ documentsOfPages ([(⟨1, "hello", []⟩ : PageData)] ++
        (⟨2, "", []⟩ : PageData) :: []) "f", d.page = none) :=
  ⟨by decide, empty_page_contributes_separator "f" [⟨1, "hello", []⟩] []
    ⟨2, "", []⟩ rfl rfl (by decide)⟩

/-- **C1 (counterexample).** A single-page document whose page has no text
and no tables still yields a Document (the separator), refuting "such a page
contributes nothing to the output list". -/
theorem empty_page_still_yields_document :
    convert_pdf_to_text id [⟨[], Except.ok [], Except.ok [], Except.ok []⟩] "f" =
      [sepDoc "f"] ∧
    convert_pdf_to_text id [⟨[], Except.ok [], Except.ok [], Except.ok []⟩] "f" ≠ [] := by
  constructor
  · decide
  · decide

section AllEmpty

lemma snd_mem_of_mem_enumFrom : ∀ (l : List α) (n : Nat) (pr : Nat × α),
    pr ∈ l.enumFrom n → pr.2 ∈ l := by
  intro l
  induction l with
  | nil => intro n pr h; exact absurd h (List.not_mem_nil pr)
  | cons a l ih =>
    intro n pr h
    rw [List.enumFrom_cons] at h
    rcases List.mem_cons.mp h with rfl | h
    · exact List.mem_cons_self _ _
    · exact List.mem_cons_of_mem _ (ih (n + 1) pr h)

end AllEmpty

/-- **C2 (amended).** A document in which every page yields no words and no
tables does not raise anything: `convert_pdf_to_text` returns normally with
one separator-only Document per page (page metadata `none`).  There is no
`EmptyCorpus` (or any other) error path in the function. -/
theorem all_empty_document_returns_separators (nfkc : String → String)
    (inputs : List PageInput) (fileName : String)
    (h : ∀ inp ∈ inputs, inp.words = [] ∧ pageTableItems inp = []) :
    convert_pdf_to_text nfkc inputs fileName =
      List.replicate inputs.length (sepDoc fileName) := by
  have hpp : ∀ pr ∈ inputs.enum, processPage nfkc pr.1 pr.2 =
      (⟨pr.1 + 1, "", []⟩ : PageData) := by
    intro pr hpr
    obtain ⟨hw, hex⟩ := h pr.2 (snd_mem_of_mem_enumFrom inputs 0 pr hpr)
    unfold processPage
    rw [hex, hw]
    rfl
  have hget : get_text_and_tables nfkc inputs =
      inputs.enum.map (fun pr => (⟨pr.1 + 1, "", []⟩ : PageData)) := by
    unfold get_text_and_tables
    exact List.map_congr_left hpp
  have hlen : (inputs.enum.map (fun pr => (⟨pr.1 + 1, "", []⟩ : PageData))).length =
      inputs.length := by simp
  have hempty : ∀ q ∈ inputs.enum.map (fun pr => (⟨pr.1 + 1, "", []⟩ : PageData)),
      bodyChars q = [] := by
    intro q hq
    simp only [List.mem_map] at hq
    obtain ⟨pr, _, rfl⟩ := hq
    exact bodyChars_empty rfl rfl
  unfold convert_pdf_to_text
  rw [hget]
  cases hm : inputs.enum.map (fun pr => (⟨pr.1 + 1, "", []⟩ : PageData)) with
  | nil =>
    have h0 : inputs.length = 0 := by rw [← hlen, hm]; rfl
    rw [h0]
    rfl
  | cons p0 ps =>
    have hempty' : ∀ q ∈ p0 :: ps, bodyChars q = [] := hm ▸ hempty
    rw [documentsOfPages_eq fileName p0 ps
      (fun q hq => by rw [hempty' q hq]; exact List.not_mem_nil _)]
    rw [pairList_flatMap_empty fileName ps p0 (hempty' p0 (List.mem_cons_self _ _))
      (fun q hq => hempty' q (List.mem_cons_of_mem _ hq))]
    have hlen' : ps.length + 1 = inputs.length := by rw [← hlen, hm]; rfl
    rw [hlen']

/-- Witness for **C2 (amended)** at a one-page all-empty document. -/
theorem all_empty_document_returns_separators_witness :
    (∀ inp ∈ [(⟨[], Except.ok [], Except.ok [], Except.ok []⟩ : PageInput)],
      inp.words = [] ∧ pageTableItems inp = []) ∧
    convert_pdf_to_text id [⟨[], Except.ok [], Except.ok [], Except.ok []⟩] "doc.pdf" =
      List.replicate 1 (sepDoc "doc.pdf") :=
  ⟨by decide, all_empty_document_returns_separators id _ "doc.pdf" (by decide)⟩

/-- **C2 (counterexample).** On an all-empty one-page document
`convert_pdf_to_text` returns a (non-empty) result list — there is no
exception channel at all in the embedding, matching the absence of any
`raise` in the source — refuting "raises an EmptyCorpus error instead of
returning a result list". -/
theorem all_empty_document_no_error :
    (convert_pdf_to_text id [⟨[], Except.ok [], Except.ok [], Except.ok []⟩]
      "doc.pdf").length = 1 := by
  decide

end PdfToText
